import Mathlib

set_option maxRecDepth 20000

/- Verification of the salary-mass dashboard data pipeline (src/app.py):
   the filter engine (`apply_filters`, `get_sorted_unique_options`,
   `get_available_options`), the loader (`load_data`) and the KPI /
   aggregation computations used by the dashboard body.  Tabular data is
   modelled as a `DF`: a list of column labels plus rows of
   (label, cell) pairs.  Monetary amounts are modelled as exact
   rationals; the external libraries (pandas, numpy) are embedded at the
   granularity of the operations the source applies to each cell. -/

/-- Characters treated as surrounding whitespace by the embedded `str.strip`. -/
def isWS (c : Char) : Bool := c = ' ' || c = '\t' || c = '\n' || c = '\r'

/-- Drop trailing whitespace characters. -/
def dropTrailing (l : List Char) : List Char := (l.reverse.dropWhile isWS).reverse

/-- Strip leading and trailing whitespace from a character list. -/
def stripChars (l : List Char) : List Char := dropTrailing (l.dropWhile isWS)

/-- Embedding of Python `str.strip()` / pandas `.str.strip()`. -/
def pyStrip (s : String) : String := ⟨stripChars s.data⟩

/-- Boolean lexicographic comparison of character lists by code point,
matching Python string comparison. -/
def charsLe : List Char → List Char → Bool
  | [], _ => true
  | _ :: _, [] => false
  | a :: as, b :: bs => a.toNat < b.toNat || (a.toNat == b.toNat && charsLe as bs)

/-- The string order used by Python `sorted` on strings (code-point
lexicographic). -/
def pyLe (a b : String) : Prop := charsLe a.data b.data = true

instance : DecidableRel pyLe := fun a b => instDecidableEqBool (charsLe a.data b.data) true

/-- Distinct values in first-occurrence order, accumulator of already-seen
values (pandas `Series.unique`). -/
def uniqueFirstAux (seen : List String) : List String → List String
  | [] => []
  | v :: vs => if v ∈ seen then uniqueFirstAux seen vs else v :: uniqueFirstAux (v :: seen) vs

/-- Distinct values of a list in first-occurrence order (pandas `unique`). -/
def uniqueFirst (l : List String) : List String := uniqueFirstAux [] l

/-- A parsed period: year plus month (months are 0-indexed, 12 of them),
standing in for a pandas Timestamp at the month granularity used by the app. -/
structure PDate where
  year : Nat
  month : Fin 12
deriving DecidableEq

/-- A spreadsheet cell: missing (NaN/None), text, numeric, or a parsed date. -/
inductive Cell where
  | empty
  | str (s : String)
  | num (q : ℚ)
  | date (d : PDate)
deriving DecidableEq

/-- A row: (column label, cell) pairs. -/
abbrev Row := List (String × Cell)

/-- A data frame: ordered column labels plus rows. -/
structure DF where
  cols : List String
  rows : List Row
deriving DecidableEq

/-- Value of column `c` in row `r` (first matching entry; `empty` when absent). -/
def lookup (r : Row) (c : String) : Cell :=
  match r.find? (fun p => p.1 == c) with
  | some p => p.2
  | none => Cell.empty

/-- Whether row `r` carries an entry for column `c`. -/
def hasKey (r : Row) (c : String) : Bool := (r.find? (fun p => p.1 == c)).isSome

/-- Overwrite every entry of column `c` with value `v` (pandas column
assignment on an existing column). -/
def setCell (r : Row) (c : String) (v : Cell) : Row :=
  r.map (fun p => if p.1 == c then (c, v) else p)

/-- Pandas column assignment: overwrite when the column exists, append a new
column otherwise. -/
def setCol (r : Row) (c : String) (v : Cell) : Row :=
  if hasKey r c then setCell r c v else r ++ [(c, v)]

/-- Add a column label if not already present. -/
def addColName (cs : List String) (c : String) : List String :=
  if c ∈ cs then cs else cs ++ [c]

/-- Well-formed frame: each row's keys are exactly the frame's column labels. -/
def WFdf (t : DF) : Prop := ∀ r ∈ t.rows, r.map Prod.fst = t.cols

instance (t : DF) : Decidable (WFdf t) :=
  decidable_of_iff (∀ r ∈ t.rows, r.map Prod.fst = t.cols) Iff.rfl

/-- A set of per-dimension selections, as produced by the sidebar
multiselect widgets (dimension name, selected values). -/
abbrev Sels := List (String × List String)

/-- `Series.isin(values)` on one cell, for a list of selected strings: only a
text cell equal to one of the values matches. -/
def isinB (v : Cell) (vals : List String) : Bool :=
  match v with
  | Cell.str s => vals.contains s
  | _ => false

/-- Embedding of `apply_filters` (src/app.py lines 101-106): for each
dimension with a truthy (non-empty) selection list, keep the rows whose
value is in the list. -/
def apply_filters (rows : List Row) (selections : Sels) : List Row :=
  selections.foldl
    (fun acc cv =>
      if cv.2 ≠ [] then acc.filter (fun r => isinB (lookup r cv.1) cv.2) else acc)
    rows

/-- The dashboard's filterable dimensions (src/app.py line 182). -/
def filter_cols : List String :=
  ["Gerencia", "Nivel", "Clasificacion_Ministerio", "Relación", "Mes", "Ceco", "Legajo"]

/-- The selection with every dimension's selection set empty. -/
def emptySelection : Sels := filter_cols.map (fun c => (c, ([] : List String)))

/-- The fixed Spanish month-name table (src/app.py lines 114 and 145). -/
def all_months_order : List String :=
  ["Enero", "Febrero", "Marzo", "Abril", "Mayo", "Junio", "Julio", "Agosto",
   "Septiembre", "Octubre", "Noviembre", "Diciembre"]

/-- Month name for a month number (the `meses_es` mapping, 0-indexed here). -/
def meses_es (m : Fin 12) : String := all_months_order.getD m.val ""

/-- Sort key used for the month column: index in the fixed month order, `-1`
when the value is not a month name (src/app.py line 115). -/
def monthKey (m : String) : Int :=
  match all_months_order.findIdx? (fun x => x == m) with
  | some i => (i : Int)
  | none => -1

instance : DecidableRel (fun a b : String => monthKey a ≤ monthKey b) :=
  fun a b => Int.decLe (monthKey a) (monthKey b)

/-- `sorted(...)` as applied by `get_sorted_unique_options`: chronological
month order for the `Mes` column, code-point lexicographic otherwise. -/
def sortForCol (c : String) (l : List String) : List String :=
  if c = "Mes" then l.insertionSort (fun a b => monthKey a ≤ monthKey b)
  else l.insertionSort pyLe

/-- The text value of column `c` in row `r`, when the cell is text. -/
def rowStr (r : Row) (c : String) : Option String :=
  match lookup r c with
  | Cell.str s => some s
  | _ => none

/-- Embedding of `get_sorted_unique_options` (src/app.py lines 109-117):
distinct non-null values of the column, with the sentinel
`'no disponible'` removed, sorted per dimension.  The dashboard's filter
columns only ever hold text cells after `load_data`, so the column is read
as text. -/
def get_sorted_unique_options (df : DF) (column_name : String) : List String :=
  if column_name ∈ df.cols then
    sortForCol column_name
      ((uniqueFirst (df.rows.filterMap (fun r => rowStr r column_name))).filter
        (fun v => v ≠ "no disponible"))
  else []

/-- Embedding of `get_available_options` (src/app.py lines 119-124): filter by
every other dimension's non-empty selection, then list the options of the
target column. -/
def get_available_options (df : DF) (selections : Sels) (target_column : String) :
    List String :=
  get_sorted_unique_options
    (DF.mk df.cols
      (selections.foldl
        (fun acc cv =>
          if cv.1 ≠ target_column ∧ cv.2 ≠ [] then
            acc.filter (fun r => isinB (lookup r cv.1) cv.2)
          else acc)
        df.rows))
    target_column

/-- Spec-side definition for claim C6, following the claim's words only: the
sorted distinct values of the target dimension taken from the subset
obtained by applying all other dimensions' selections (the target dimension
itself unconstrained), with no further adjustment. -/
def availableOptionsSpec (df : DF) (selections : Sels) (target : String) : List String :=
  sortForCol target
    (uniqueFirst
      ((apply_filters df.rows (selections.filter (fun cv => cv.1 ≠ target))).filterMap
        (fun r => rowStr r target)))

/-- `astype(str)` on one cell.  A missing value renders as `'nan'`; numeric
cells use the float rendering of the columns observed in the source data
(the exact float formatting is abstracted; no claim depends on it). -/
def cellToStr : Cell → String
  | Cell.empty => "nan"
  | Cell.str s => s
  | Cell.num q => if q.den = 1 then toString q.num ++ ".0" else toString q
  | Cell.date d => toString d.year

/-- The placeholder values replaced by `'no disponible'` (src/app.py line 154). -/
def badVals : List String := ["", "None", "nan", "nan.0", "0"]

/-- `astype(str).str.strip().replace([...], 'no disponible')` on one cell
(src/app.py line 154). -/
def strCleanCell (v : Cell) : Cell :=
  if badVals.contains (pyStrip (cellToStr v)) then Cell.str "no disponible"
  else Cell.str (pyStrip (cellToStr v))

/-- Numeric value of a digit list. -/
def digitsVal (l : List Char) : Nat := l.foldl (fun a c => a * 10 + (c.toNat - 48)) 0

/-- Model of `pd.to_numeric` on a text value: optional sign, digits with at
most one decimal point (scientific notation and other exotic float syntax
are abstracted away as unparseable; no claim depends on them). -/
def parseNumStr (s : String) : Option ℚ :=
  let l0 := stripChars s.data
  let sgn : Bool := match l0 with
    | '-' :: _ => true
    | _ => false
  let l : List Char := match l0 with
    | '-' :: rest => rest
    | '+' :: rest => rest
    | _ => l0
  let ip := l.takeWhile (fun c => c ≠ '.')
  let rest := l.dropWhile (fun c => c ≠ '.')
  match rest with
  | [] =>
    if ip ≠ [] ∧ ip.all Char.isDigit then
      some (Rat.divInt ((if sgn then -1 else 1) * (digitsVal ip : Int)) 1)
    else none
  | _ :: fp =>
    if (ip ≠ [] ∨ fp ≠ []) ∧ ip.all Char.isDigit ∧ fp.all Char.isDigit then
      some (Rat.divInt
        ((if sgn then -1 else 1) * ((digitsVal ip : Int) * (10 ^ fp.length : Int) + (digitsVal fp : Int)))
        ((10 : Int) ^ fp.length))
    else none

/-- `pd.to_numeric(cell, errors='coerce')`: numbers pass through, text is
parsed, everything else coerces to missing. -/
def toNum : Cell → Option ℚ
  | Cell.num q => some q
  | Cell.str s => parseNumStr s
  | _ => none

/-- The numeric stage of src/app.py line 153 for the Ceco / Legajo columns:
`pd.to_numeric(errors='coerce').astype('Int64').astype(str).replace('<NA>', 'no disponible')`
on one cell.  `none` models the TypeError raised by `astype('Int64')` on a
non-integral float. -/
def numKeyStage (v : Cell) : Option Cell :=
  match toNum v with
  | none => some (Cell.str "no disponible")
  | some q => if q.den = 1 then some (Cell.str (toString q.num)) else none

/-- The full per-cell cleaning applied to a key filter column `c`
(src/app.py lines 152-154). -/
def colClean (c : String) (v : Cell) : Option Cell :=
  if c = "Ceco" ∨ c = "Legajo" then
    match numKeyStage v with
    | none => none
    | some w => some (strCleanCell w)
  else some (strCleanCell v)

/-- The key filter columns of src/app.py line 149. -/
def keyFilterColumns : List String :=
  ["Gerencia", "Nivel", "Clasificacion_Ministerio", "Relación", "Ceco", "Legajo"]

/-- `mapM` over `Option`, written by structural recursion. -/
def mapMO (f : α → Option β) : List α → Option (List β)
  | [] => some []
  | a :: l =>
    match f a, mapMO f l with
    | some b, some bs => some (b :: bs)
    | _, _ => none

/-- Processing of one key filter column (one iteration of the loop at
src/app.py lines 150-156): clean the column in place when present, else
synthesize it filled with `'no disponible'`. -/
def processKeyCol (t : DF) (c : String) : Option DF :=
  if c ∈ t.cols then
    (mapMO (fun r => (colClean c (lookup r c)).map (fun v => setCell r c v)) t.rows).map
      (fun rs => DF.mk t.cols rs)
  else some (DF.mk (t.cols ++ [c]) (t.rows.map (fun r => r ++ [(c, Cell.str "no disponible")])))

/-- Fold of `processKeyCol` over a list of columns. -/
def keyColsFold (t : DF) : List String → Option DF
  | [] => some t
  | c :: cs =>
    match processKeyCol t c with
    | none => none
    | some t2 => keyColsFold t2 cs

/-- The whole key-column loop of src/app.py lines 149-156. -/
def keyColsStage (t : DF) : Option DF := keyColsFold t keyFilterColumns

/-- The column renaming of src/app.py line 148. -/
def renameMap (c : String) : String :=
  if c = "Clasificación Ministerio de Hacienda" then "Clasificacion_Ministerio"
  else if c = "Nro. de Legajo" then "Legajo" else c

/-- `df.rename(columns=...)` (src/app.py line 148). -/
def renameStage (t : DF) : DF :=
  DF.mk (t.cols.map renameMap) (t.rows.map (fun r => r.map (fun p => (renameMap p.1, p.2))))

/-- Header whitespace stripping (src/app.py line 136). -/
def stripHeaders (t : DF) : DF :=
  DF.mk (t.cols.map pyStrip) (t.rows.map (fun r => r.map (fun p => (pyStrip p.1, p.2))))

/-- Dropping of the unnamed leading index column (src/app.py lines 137-138). -/
def dropUnnamed (t : DF) : DF :=
  if "Unnamed: 0" ∈ t.cols then
    DF.mk (t.cols.filter (fun c => c ≠ "Unnamed: 0"))
      (t.rows.map (fun r => r.filter (fun p => p.1 ≠ "Unnamed: 0")))
  else t

/-- Model of `pd.to_datetime(errors='coerce')` on one cell: date-typed cells
parse to themselves, every other value coerces to missing (the external
date-string parser is abstracted: the claims only distinguish parseable
from unparseable period values). -/
def parsePeriod : Cell → Option PDate
  | Cell.date d => some d
  | _ => none

/-- The period stage (src/app.py lines 142-146): parse the period column,
drop rows whose period fails to parse, and derive the `Mes_Num` and `Mes`
columns from the parsed date. -/
def periodStage (t : DF) : DF :=
  DF.mk (addColName (addColName t.cols "Mes_Num") "Mes")
    (t.rows.filterMap (fun r =>
      match parsePeriod (lookup r "Período") with
      | none => none
      | some d =>
        some (setCol
          (setCol (setCell r "Período" (Cell.date d)) "Mes_Num"
            (Cell.num ((d.month.val + 1 : ℕ) : ℚ)))
          "Mes" (Cell.str (meses_es d.month)))))

/-- Truncation toward zero of a rational, as performed by numpy's
float-to-int cast. -/
def ratTrunc (q : ℚ) : Int := q.num.tdiv (q.den : Int)

/-- `pd.to_numeric(errors='coerce').fillna(0).astype(int)` on one cell
(src/app.py line 159). -/
def dotClean (v : Cell) : Cell := Cell.num ((ratTrunc ((toNum v).getD 0) : Int) : ℚ)

/-- The headcount coercion stage (src/app.py lines 158-159). -/
def dotStage (t : DF) : DF :=
  if "Dotación" ∈ t.cols then
    DF.mk t.cols (t.rows.map (fun r => setCell r "Dotación" (dotClean (lookup r "Dotación"))))
  else t

/-- The four categorical dimensions of the final dropna (src/app.py line 161). -/
def fourDims : List String := ["Gerencia", "Nivel", "Clasificacion_Ministerio", "Relación"]

/-- Whether a cell counts as missing for `dropna`. -/
def isNACell : Cell → Bool
  | Cell.empty => true
  | _ => false

/-- `df.dropna(subset=[the four dimensions])` (src/app.py line 161). -/
def dropnaStage (t : DF) : DF :=
  DF.mk t.cols (t.rows.filter (fun r => fourDims.all (fun c => !(isNACell (lookup r c)))))

/-- The error message shown when the period column is missing
(src/app.py line 140). -/
def periodoMsg : String := "Error Crítico: La columna 'Período' no se encuentra."

/-- Outcome of the loader: the schema error path (message shown, empty frame
returned), an uncaught cast exception, or a loaded frame. -/
inductive LoadResult where
  | schemaError (msg : String)
  | castError
  | ok (df : DF)
deriving DecidableEq

/-- Embedding of `load_data` (src/app.py lines 129-163), starting from the
raw table read out of the spreadsheet. -/
def load_data (t : DF) : LoadResult :=
  let t2 := dropUnnamed (stripHeaders t)
  if "Período" ∈ t2.cols then
    match keyColsStage (renameStage (periodStage t2)) with
    | none => LoadResult.castError
    | some t5 => LoadResult.ok (dropnaStage (dotStage t5))
  else LoadResult.schemaError periodoMsg

/-- Column labels after header resolution (strip + drop of the unnamed
column). -/
def processedCols (t : DF) : List String := (dropUnnamed (stripHeaders t)).cols

/-- The frame after the period stage. -/
def afterPeriod (t : DF) : DF := periodStage (dropUnnamed (stripHeaders t))

/-- The frame after the rename stage. -/
def afterRename (t : DF) : DF := renameStage (afterPeriod t)

/-- Number of raw rows whose period value parses. -/
def countParsed (t : DF) : Nat :=
  ((dropUnnamed (stripHeaders t)).rows.filter
    (fun r => (parsePeriod (lookup r "Período")).isSome)).length

/-- Number of raw rows dropped because their period value fails to parse. -/
def countRejected (t : DF) : Nat :=
  ((dropUnnamed (stripHeaders t)).rows.filter
    (fun r => (parsePeriod (lookup r "Período")).isNone)).length

/-- Rows of a successful load (empty for the failure outcomes). -/
def okRows : LoadResult → List Row
  | LoadResult.ok df => df.rows
  | _ => []

/-- Whether a load succeeded. -/
def isOkB : LoadResult → Bool
  | LoadResult.ok _ => true
  | _ => false

/-- Numeric value of a cell as summed by pandas (`NaN` contributes nothing). -/
def cellQ : Cell → ℚ
  | Cell.num q => q
  | _ => 0

/-- `df[c].sum()`. -/
def colSum (rows : List Row) (c : String) : ℚ :=
  (rows.map (fun r => cellQ (lookup r c))).sum

/-- `total_masa_salarial = df_filtered['Total Mensual'].sum()` (src line 235). -/
def total_masa_salarial (rows : List Row) : ℚ := colSum rows "Total Mensual"

/-- Maximum of a list of rationals (`Series.max`), `0` reserved for the
empty case which the caller guards. -/
def maxQ : List ℚ → ℚ
  | [] => 0
  | a :: as => as.foldl max a

/-- `cantidad_empleados` (src/app.py lines 236-241): headcount summed over
the rows of the latest month present. -/
def cantidad_empleados (rows : List Row) : ℚ :=
  if rows.isEmpty then 0
  else
    colSum
      (rows.filter (fun r =>
        cellQ (lookup r "Mes_Num") == maxQ (rows.map (fun r2 => cellQ (lookup r2 "Mes_Num")))))
      "Dotación"

/-- `costo_medio` (src/app.py line 244). -/
def costo_medio (rows : List Row) : ℚ :=
  if cantidad_empleados rows > 0 then total_masa_salarial rows / cantidad_empleados rows
  else 0

instance : DecidableRel (fun a b : String × ℚ × ℚ => a.2.2 ≤ b.2.2) :=
  fun a b => inferInstanceAs (Decidable (a.2.2 ≤ b.2.2))

instance : DecidableRel (fun a b : String × ℚ => b.2 ≤ a.2) :=
  fun a b => inferInstanceAs (Decidable (b.2 ≤ a.2))

/-- `masa_mensual` (src/app.py line 258): group the filtered rows by month
name (group keys sorted as pandas does), sum the monthly total and take the
first month number per group, then sort by month number.  Entries are
(month name, summed total, month number). -/
def masa_mensual (rows : List Row) : List (String × ℚ × ℚ) :=
  (((uniqueFirst (rows.filterMap (fun r => rowStr r "Mes"))).insertionSort pyLe).map
    (fun m =>
      (m, colSum (rows.filter (fun r => rowStr r "Mes" == some m)) "Total Mensual",
        cellQ (lookup ((rows.filter (fun r => rowStr r "Mes" == some m)).headD []) "Mes_Num")))).insertionSort
    (fun a b => a.2.2 ≤ b.2.2)

/-- The monthly table rendered by the app, with the synthetic Total row
appended — as the sum of the already-computed column — when the table is
non-empty (src/app.py lines 289-292). -/
def masa_mensual_display (rows : List Row) : List (String × ℚ) :=
  if ((masa_mensual rows).map (fun e => (e.1, e.2.1))).isEmpty then
    (masa_mensual rows).map (fun e => (e.1, e.2.1))
  else
    (masa_mensual rows).map (fun e => (e.1, e.2.1))
      ++ [("Total", (((masa_mensual rows).map (fun e => (e.1, e.2.1))).map (fun e => e.2)).sum)]

/-- `clasificacion_data` before the share column (src/app.py lines 335 and
338): group by classification, sum the monthly total, sort descending by
the sum. -/
def clasifGroups (rows : List Row) : List (String × ℚ) :=
  (((uniqueFirst (rows.filterMap (fun r => rowStr r "Clasificacion_Ministerio"))).insertionSort
      pyLe).map
    (fun g =>
      (g, colSum (rows.filter (fun r => rowStr r "Clasificacion_Ministerio" == some g))
        "Total Mensual"))).insertionSort (fun a b => b.2 ≤ a.2)

/-- `total = clasificacion_data['Total Mensual'].sum()` (src/app.py line 339). -/
def clasifTotal (rows : List Row) : ℚ := ((clasifGroups rows).map (fun e => e.2)).sum

/-- `clasificacion_data` with the Porcentaje column (src/app.py lines
335-343): (classification, group sum, share). -/
def clasificacion_data (rows : List Row) : List (String × ℚ × ℚ) :=
  if clasifTotal rows > 0 then
    (clasifGroups rows).map (fun e => (e.1, e.2, e.2 / clasifTotal rows))
  else (clasifGroups rows).map (fun e => (e.1, e.2, (0 : ℚ)))

/-- Fixture: a raw table with one date-typed period row and no other columns. -/
def tGood : DF := DF.mk ["Período"] [[("Período", Cell.date ⟨2025, 0⟩)]]

/-- Fixture: the same table plus one row whose period value does not parse. -/
def tBad : DF := DF.mk ["Período"]
  [[("Período", Cell.date ⟨2025, 0⟩)], [("Período", Cell.str "not-a-date")]]

/-- Fixture: one row whose Gerencia value is missing. -/
def tNoGer : DF := DF.mk ["Período", "Gerencia"]
  [[("Período", Cell.date ⟨2025, 0⟩), ("Gerencia", Cell.empty)]]

/-- Fixture: one row with a fractional headcount value. -/
def tFrac : DF := DF.mk ["Período", "Dotación"]
  [[("Período", Cell.date ⟨2025, 0⟩), ("Dotación", Cell.num (Rat.divInt 3 2))]]

/-- Fixture: a table without the period column, columns named A. -/
def tColsA : DF := DF.mk ["A"] []

/-- Fixture: a table without the period column, columns named B. -/
def tColsB : DF := DF.mk ["B"] []

/-- Fixture: a filtered record set whose only row has headcount -1. -/
def rowsNeg : List Row :=
  [[("Mes_Num", Cell.num 1), ("Dotación", Cell.num (-1)), ("Total Mensual", Cell.num 5)]]

/-- Fixture: a frame holding the sentinel value in its Gerencia column. -/
def dfSent : DF := DF.mk ["Gerencia"]
  [[("Gerencia", Cell.str "no disponible")], [("Gerencia", Cell.str "A")]]

/-- Fixture: a frame with a single ordinary Gerencia value. -/
def dfOpt : DF := DF.mk ["Gerencia"] [[("Gerencia", Cell.str "A")]]

/-- Fixture: a selection of the single value A on the Gerencia dimension. -/
def selsA : Sels := [("Gerencia", ["A"])]

/-- Fixture: a row carrying the sentinel value on Gerencia. -/
def rowSent : Row := [("Gerencia", Cell.str "no disponible")]

/-- Fixture: two months of rows for the monthly aggregation. -/
def rowsMes : List Row :=
  [[("Mes", Cell.str "Enero"), ("Mes_Num", Cell.num 1), ("Total Mensual", Cell.num 10)],
   [("Mes", Cell.str "Febrero"), ("Mes_Num", Cell.num 2), ("Total Mensual", Cell.num 5)]]

/-- Fixture: one row, one classification group, zero amount. -/
def rowsCls0 : List Row :=
  [[("Mes_Num", Cell.num 1), ("Dotación", Cell.num 2), ("Total Mensual", Cell.num 0),
    ("Clasificacion_Ministerio", Cell.str "X")]]

/-- Fixture: the loader output for `tGood` (and `tBad`). -/
def dfGood : DF := DF.mk
  ["Período", "Mes_Num", "Mes", "Gerencia", "Nivel", "Clasificacion_Ministerio", "Relación",
   "Ceco", "Legajo"]
  [[("Período", Cell.date ⟨2025, 0⟩), ("Mes_Num", Cell.num 1), ("Mes", Cell.str "Enero"),
    ("Gerencia", Cell.str "no disponible"), ("Nivel", Cell.str "no disponible"),
    ("Clasificacion_Ministerio", Cell.str "no disponible"),
    ("Relación", Cell.str "no disponible"), ("Ceco", Cell.str "no disponible"),
    ("Legajo", Cell.str "no disponible")]]

/-- Fixture: the loader output for `tFrac`. -/
def dfFrac : DF := DF.mk
  ["Período", "Dotación", "Mes_Num", "Mes", "Gerencia", "Nivel", "Clasificacion_Ministerio",
   "Relación", "Ceco", "Legajo"]
  [[("Período", Cell.date ⟨2025, 0⟩), ("Dotación", Cell.num 1), ("Mes_Num", Cell.num 1),
    ("Mes", Cell.str "Enero"), ("Gerencia", Cell.str "no disponible"),
    ("Nivel", Cell.str "no disponible"),
    ("Clasificacion_Ministerio", Cell.str "no disponible"),
    ("Relación", Cell.str "no disponible"), ("Ceco", Cell.str "no disponible"),
    ("Legajo", Cell.str "no disponible")]]

/-- Dropping while a predicate holds is idempotent. -/
theorem dropWhile_idem (p : Char → Bool) (l : List Char) :
    (l.dropWhile p).dropWhile p = l.dropWhile p := by
  induction l with
  | nil => rfl
  | cons a l ih =>
    by_cases h : p a
    · simp [List.dropWhile_cons, h, ih]
    · simp [List.dropWhile_cons, h]

/-- `dropWhile` ignores a trailing element that fails the predicate. -/
theorem dropWhile_append_last (p : Char → Bool) (a : Char) (h : p a = false) (l : List Char) :
    (l ++ [a]).dropWhile p = l.dropWhile p ++ [a] := by
  induction l with
  | nil => simp [List.dropWhile_cons, h]
  | cons b l ih =>
    by_cases hb : p b
    · simp [List.dropWhile_cons, hb, ih]
    · simp [List.dropWhile_cons, hb]

/-- `dropTrailing` keeps a non-whitespace head in place. -/
theorem dropTrailing_cons (a : Char) (l : List Char) (h : isWS a = false) :
    dropTrailing (a :: l) = a :: dropTrailing l := by
  unfold dropTrailing
  rw [List.reverse_cons, dropWhile_append_last isWS a h, List.reverse_append]
  simp

/-- `dropTrailing` is idempotent. -/
theorem dropTrailing_idem (l : List Char) : dropTrailing (dropTrailing l) = dropTrailing l := by
  unfold dropTrailing
  rw [List.reverse_reverse, dropWhile_idem]

/-- A stripped list has no leading whitespace. -/
theorem stripChars_dropWhile (l : List Char) (h : l.dropWhile isWS = l) :
    (dropTrailing l).dropWhile isWS = dropTrailing l := by
  cases l with
  | nil => rfl
  | cons a m =>
    have ha : isWS a = false := by
      by_contra hc
      rw [Bool.not_eq_false] at hc
      rw [List.dropWhile_cons, if_pos hc] at h
      have hle := (List.dropWhile_sublist (l := m) (p := isWS)).length_le
      rw [h] at hle
      simp at hle
    rw [dropTrailing_cons a m ha, List.dropWhile_cons, if_neg (by simp [ha])]

/-- `stripChars` is idempotent. -/
theorem stripChars_idem (l : List Char) : stripChars (stripChars l) = stripChars l := by
  show stripChars (dropTrailing (l.dropWhile isWS)) = dropTrailing (l.dropWhile isWS)
  unfold stripChars
  rw [stripChars_dropWhile (l.dropWhile isWS) (dropWhile_idem isWS l), dropTrailing_idem]

/-- `pyStrip` is idempotent: stripped strings are fixed points. -/
theorem pyStrip_idem (s : String) : pyStrip (pyStrip s) = pyStrip s :=
  congrArg String.mk (stripChars_idem s.data)

/-- Totality of the code-point lexicographic comparison. -/
theorem charsLe_total (a : List Char) : ∀ b : List Char, charsLe a b = true ∨ charsLe b a = true := by
  induction a with
  | nil => intro b; left; rfl
  | cons x xs ih =>
    intro b
    cases b with
    | nil => right; rfl
    | cons y ys =>
      rcases Nat.lt_trichotomy x.toNat y.toNat with h | h | h
      · left; simp [charsLe, h]
      · rcases ih ys with h2 | h2
        · left; simp [charsLe, h, h2]
        · right; simp [charsLe, h.symm, h2]
      · right; simp [charsLe, h]

/-- Transitivity of the code-point lexicographic comparison. -/
theorem charsLe_trans (a : List Char) :
    ∀ b c : List Char, charsLe a b = true → charsLe b c = true → charsLe a c = true := by
  induction a with
  | nil => intro b c _ _; rfl
  | cons x xs ih =>
    intro b c hab hbc
    cases b with
    | nil => simp [charsLe] at hab
    | cons y ys =>
      cases c with
      | nil => simp [charsLe] at hbc
      | cons z zs =>
        simp only [charsLe, Bool.or_eq_true, Bool.and_eq_true, decide_eq_true_eq,
          beq_iff_eq] at hab hbc ⊢
        rcases hab with h1 | ⟨h1, h1'⟩
        · rcases hbc with h2 | ⟨h2, h2'⟩
          · left; omega
          · left; omega
        · rcases hbc with h2 | ⟨h2, h2'⟩
          · left; omega
          · right; exact ⟨by omega, ih ys zs h1' h2'⟩

instance : IsTotal String pyLe := ⟨fun a b => charsLe_total a.data b.data⟩

instance : IsTrans String pyLe := ⟨fun a b c => charsLe_trans a.data b.data c.data⟩

instance : IsTotal String (fun a b => monthKey a ≤ monthKey b) := ⟨fun a b => le_total _ _⟩

instance : IsTrans String (fun a b => monthKey a ≤ monthKey b) :=
  ⟨fun _ _ _ h1 h2 => le_trans h1 h2⟩

/-- Membership in the deduplicated list. -/
theorem uniqueFirstAux_mem (l : List String) :
    ∀ (seen : List String) (x : String), x ∈ uniqueFirstAux seen l ↔ x ∈ l ∧ x ∉ seen := by
  induction l with
  | nil => intro seen x; simp [uniqueFirstAux]
  | cons v vs ih =>
    intro seen x
    by_cases hv : v ∈ seen
    · rw [uniqueFirstAux, if_pos hv, ih]
      constructor
      · rintro ⟨h1, h2⟩; exact ⟨List.mem_cons_of_mem _ h1, h2⟩
      · rintro ⟨h1, h2⟩
        rcases List.mem_cons.mp h1 with rfl | h1
        · exact absurd hv h2
        · exact ⟨h1, h2⟩
    · rw [uniqueFirstAux, if_neg hv]
      constructor
      · intro h1
        rcases List.mem_cons.mp h1 with rfl | h1
        · exact ⟨List.mem_cons_self x vs, hv⟩
        · rw [ih] at h1
          exact ⟨List.mem_cons_of_mem _ h1.1, fun hs => h1.2 (List.mem_cons_of_mem _ hs)⟩
      · rintro ⟨h1, h2⟩
        by_cases hx : x = v
        · exact List.mem_cons.mpr (Or.inl hx)
        · rcases List.mem_cons.mp h1 with rfl | h1
          · exact absurd rfl hx
          · refine List.mem_cons_of_mem _ ?_
            rw [ih]
            refine ⟨h1, fun hs => ?_⟩
            rcases List.mem_cons.mp hs with rfl | hs
            · exact hx rfl
            · exact h2 hs

/-- The deduplicated list has no duplicates. -/
theorem uniqueFirstAux_nodup (l : List String) : ∀ seen : List String, (uniqueFirstAux seen l).Nodup := by
  induction l with
  | nil => intro seen; simp [uniqueFirstAux]
  | cons v vs ih =>
    intro seen
    by_cases hv : v ∈ seen
    · rw [uniqueFirstAux, if_pos hv]; exact ih seen
    · rw [uniqueFirstAux, if_neg hv]
      refine List.nodup_cons.mpr ⟨?_, ih _⟩
      intro hmem
      rw [uniqueFirstAux_mem] at hmem
      exact hmem.2 (List.mem_cons_self v seen)

/-- Membership in `uniqueFirst` is membership in the original list. -/
theorem uniqueFirst_mem (l : List String) (x : String) : x ∈ uniqueFirst l ↔ x ∈ l := by
  rw [uniqueFirst, uniqueFirstAux_mem]
  simp

/-- `uniqueFirst` returns distinct values. -/
theorem uniqueFirst_nodup (l : List String) : (uniqueFirst l).Nodup := uniqueFirstAux_nodup l []

/-- Unfolding `lookup` over a cons. -/
theorem lookup_cons (p : String × Cell) (r : Row) (c : String) :
    lookup (p :: r) c = if p.1 = c then p.2 else lookup r c := by
  by_cases h : p.1 = c
  · rw [if_pos h]
    rw [lookup, List.find?_cons_of_pos _ (by simpa using h)]
  · rw [if_neg h]
    rw [lookup, lookup, List.find?_cons_of_neg _ (by simpa using h)]

/-- Unfolding `hasKey` over a cons. -/
theorem hasKey_cons (p : String × Cell) (r : Row) (c : String) :
    hasKey (p :: r) c = if p.1 = c then true else hasKey r c := by
  by_cases h : p.1 = c
  · rw [if_pos h, hasKey, List.find?_cons_of_pos _ (by simpa using h)]
    rfl
  · rw [if_neg h, hasKey, hasKey, List.find?_cons_of_neg _ (by simpa using h)]

/-- A row carries column `c` exactly when `c` is among its keys. -/
theorem hasKey_iff_mem (r : Row) (c : String) : hasKey r c = true ↔ c ∈ r.map Prod.fst := by
  induction r with
  | nil => simp [hasKey]
  | cons p r ih =>
    rw [hasKey_cons]
    by_cases h : p.1 = c
    · simp [h]
    · simp only [if_neg h, ih, List.map_cons, List.mem_cons]
      constructor
      · exact Or.inr
      · rintro (h1 | h1)
        · exact absurd h1.symm h
        · exact h1

/-- Without the key, `lookup` yields the missing cell. -/
theorem lookup_of_not_hasKey (r : Row) (c : String) (h : hasKey r c = false) :
    lookup r c = Cell.empty := by
  induction r with
  | nil => rfl
  | cons p r ih =>
    rw [hasKey_cons] at h
    by_cases hp : p.1 = c
    · rw [if_pos hp] at h; cases h
    · rw [if_neg hp] at h
      rw [lookup_cons, if_neg hp]
      exact ih h

/-- `setCell` over a cons. -/
theorem setCell_cons (p : String × Cell) (r : Row) (c : String) (v : Cell) :
    setCell (p :: r) c v = (if p.1 = c then (c, v) else p) :: setCell r c v := by
  by_cases h : p.1 = c
  · simp [setCell, h]
  · simp [setCell, h]

/-- `setCell` does not disturb other columns. -/
theorem lookup_setCell_ne (r : Row) (c c' : String) (v : Cell) (h : c' ≠ c) :
    lookup (setCell r c v) c' = lookup r c' := by
  induction r with
  | nil => rfl
  | cons p r ih =>
    rw [setCell_cons]
    by_cases hp : p.1 = c
    · rw [if_pos hp, lookup_cons, lookup_cons, if_neg (fun hc => h hc.symm),
        if_neg (fun hc => h (hp ▸ hc).symm)]
      exact ih
    · rw [if_neg hp, lookup_cons, lookup_cons]
      by_cases hp' : p.1 = c'
      · rw [if_pos hp', if_pos hp']
      · rw [if_neg hp', if_neg hp']
        exact ih

/-- `setCell` overwrites an existing column. -/
theorem lookup_setCell_self (r : Row) (c : String) (v : Cell) (h : hasKey r c = true) :
    lookup (setCell r c v) c = v := by
  induction r with
  | nil => cases h
  | cons p r ih =>
    rw [setCell_cons]
    by_cases hp : p.1 = c
    · rw [if_pos hp, lookup_cons, if_pos rfl]
    · rw [hasKey_cons, if_neg hp] at h
      rw [if_neg hp, lookup_cons, if_neg hp]
      exact ih h

/-- `setCell` preserves the key list. -/
theorem keys_setCell (r : Row) (c : String) (v : Cell) :
    (setCell r c v).map Prod.fst = r.map Prod.fst := by
  induction r with
  | nil => rfl
  | cons p r ih =>
    rw [setCell_cons]
    by_cases hp : p.1 = c
    · simp [hp, ih]
    · simp [hp, ih]

/-- Appending a fresh column does not disturb other columns. -/
theorem lookup_append_single (r : Row) (c c' : String) (v : Cell) (h : c' ≠ c) :
    lookup (r ++ [(c, v)]) c' = lookup r c' := by
  induction r with
  | nil =>
    rw [List.nil_append, lookup_cons, if_neg (fun hc : c = c' => h hc.symm)]
  | cons p r ih =>
    rw [List.cons_append, lookup_cons, lookup_cons]
    by_cases hp : p.1 = c'
    · rw [if_pos hp, if_pos hp]
    · rw [if_neg hp, if_neg hp]
      exact ih

/-- `lookup` on an appended fresh column. -/
theorem lookup_append_self (r : Row) (c : String) (v : Cell) (h : hasKey r c = false) :
    lookup (r ++ [(c, v)]) c = v := by
  induction r with
  | nil => simp [lookup_cons]
  | cons p r ih =>
    rw [hasKey_cons] at h
    by_cases hp : p.1 = c
    · rw [if_pos hp] at h; cases h
    · rw [if_neg hp] at h
      rw [List.cons_append, lookup_cons, if_neg hp]
      exact ih h

/-- `setCol` writes the intended value. -/
theorem lookup_setCol_self (r : Row) (c : String) (v : Cell) :
    lookup (setCol r c v) c = v := by
  unfold setCol
  by_cases h : hasKey r c
  · rw [if_pos h]
    exact lookup_setCell_self r c v h
  · rw [if_neg h]
    exact lookup_append_self r c v (by simpa using h)

/-- `setCol` does not disturb other columns. -/
theorem lookup_setCol_ne (r : Row) (c c' : String) (v : Cell) (h : c' ≠ c) :
    lookup (setCol r c v) c' = lookup r c' := by
  unfold setCol
  by_cases hk : hasKey r c
  · rw [if_pos hk]
    exact lookup_setCell_ne r c c' v h
  · rw [if_neg hk]
    exact lookup_append_single r c c' v h

/-- `setCol` extends the key list exactly as `addColName` extends labels. -/
theorem keys_setCol (r : Row) (c : String) (v : Cell) :
    (setCol r c v).map Prod.fst = addColName (r.map Prod.fst) c := by
  unfold setCol addColName
  by_cases h : hasKey r c
  · rw [if_pos h, if_pos ((hasKey_iff_mem r c).mp h), keys_setCell]
  · rw [if_neg h, if_neg (fun hm => h ((hasKey_iff_mem r c).mpr hm))]
    simp

/-- A successful `mapMO` preserves length. -/
theorem mapMO_some_length {α β : Type} (f : α → Option β) :
    ∀ (l : List α) (l2 : List β), mapMO f l = some l2 → l2.length = l.length := by
  intro l
  induction l with
  | nil => intro l2 h; cases h; rfl
  | cons a l ih =>
    intro l2 h
    rw [mapMO] at h
    cases hfa : f a with
    | none => rw [hfa] at h; cases h
    | some b =>
      rw [hfa] at h
      cases hm : mapMO f l with
      | none => rw [hm] at h; cases h
      | some bs =>
        rw [hm] at h
        cases h
        simp [ih bs hm]

/-- Every output of a successful `mapMO` comes from an input. -/
theorem mapMO_some_mem {α β : Type} (f : α → Option β) :
    ∀ (l : List α) (l2 : List β), mapMO f l = some l2 → ∀ b ∈ l2, ∃ a ∈ l, f a = some b := by
  intro l
  induction l with
  | nil => intro l2 h; cases h; intro b hb; cases hb
  | cons a l ih =>
    intro l2 h
    rw [mapMO] at h
    cases hfa : f a with
    | none => rw [hfa] at h; cases h
    | some b0 =>
      rw [hfa] at h
      cases hm : mapMO f l with
      | none => rw [hm] at h; cases h
      | some bs =>
        rw [hm] at h
        cases h
        intro b hb
        rcases List.mem_cons.mp hb with rfl | hb
        · exact ⟨a, List.mem_cons_self a l, hfa⟩
        · obtain ⟨a2, ha2, hfa2⟩ := ih bs hm b hb
          exact ⟨a2, List.mem_cons_of_mem _ ha2, hfa2⟩

/-- `mapMO` succeeds when every element maps successfully. -/
theorem mapMO_isSome {α β : Type} (f : α → Option β) :
    ∀ l : List α, (∀ a ∈ l, (f a).isSome) → (mapMO f l).isSome := by
  intro l
  induction l with
  | nil => intro _; rfl
  | cons a l ih =>
    intro h
    rw [mapMO]
    cases hfa : f a with
    | none =>
      have := h a (List.mem_cons_self a l)
      rw [hfa] at this; cases this
    | some b =>
      have h2 := ih (fun a2 ha2 => h a2 (List.mem_cons_of_mem _ ha2))
      cases hm : mapMO f l with
      | none => rw [hm] at h2; cases h2
      | some bs => rfl

/-- The sequential filter loop equals one filter by the conjunction of all
non-empty selection constraints. -/
theorem apply_filters_eq_filter (sels : Sels) :
    ∀ rows : List Row,
      apply_filters rows sels
        = rows.filter (fun r => sels.all (fun cv => cv.2.isEmpty || isinB (lookup r cv.1) cv.2)) := by
  induction sels with
  | nil =>
    intro rows
    rw [apply_filters]
    simp
  | cons cv sels ih =>
    intro rows
    rw [apply_filters, List.foldl_cons]
    by_cases h : cv.2 = []
    · rw [if_neg (by simp [h])]
      rw [← apply_filters, ih rows]
      refine List.filter_congr (fun r _ => ?_)
      simp [List.all_cons, h]
    · rw [if_pos (by simp [h])]
      rw [← apply_filters, ih, List.filter_filter]
      refine List.filter_congr (fun r _ => ?_)
      have hne : cv.2.isEmpty = false := by simp [h]
      simp [List.all_cons, hne, Bool.and_comm]

/-- A selection whose sets are all empty filters nothing. -/
theorem apply_filters_all_empty (sels : Sels) (h : ∀ cv ∈ sels, cv.2 = []) :
    ∀ rows : List Row, apply_filters rows sels = rows := by
  induction sels with
  | nil => intro rows; rfl
  | cons cv sels ih =>
    intro rows
    rw [apply_filters, List.foldl_cons, if_neg (by simp [h cv (List.mem_cons_self cv sels)])]
    exact ih (fun cv2 h2 => h cv2 (List.mem_cons_of_mem _ h2)) rows

/-- The option-loop that skips the target dimension equals `apply_filters`
over the other dimensions' selections. -/
theorem avail_loop_eq_apply (target : String) (sels : Sels) :
    ∀ rows : List Row,
      sels.foldl
        (fun acc cv =>
          if cv.1 ≠ target ∧ cv.2 ≠ [] then acc.filter (fun r => isinB (lookup r cv.1) cv.2)
          else acc)
        rows
      = apply_filters rows (sels.filter (fun cv => cv.1 ≠ target)) := by
  induction sels with
  | nil => intro rows; rfl
  | cons cv sels ih =>
    intro rows
    rw [List.foldl_cons, List.filter_cons]
    by_cases h1 : cv.1 = target
    · rw [if_neg (fun hc : cv.1 ≠ target ∧ cv.2 ≠ [] => hc.1 h1), if_neg (by simp [h1])]
      exact ih rows
    · rw [if_pos (show decide (cv.1 ≠ target) = true by simp [h1])]
      rw [apply_filters, List.foldl_cons, ← apply_filters]
      by_cases h2 : cv.2 = []
      · rw [if_neg (fun hc : cv.1 ≠ target ∧ cv.2 ≠ [] => hc.2 h2), if_neg (by simp [h2])]
        exact ih rows
      · rw [if_pos ⟨h1, h2⟩, if_pos h2]
        exact ih _

/-- The cleaned cell of a key column is a non-empty stripped string. -/
theorem strCleanCell_clean (v : Cell) :
    ∃ s, strCleanCell v = Cell.str s ∧ s ≠ "" ∧ pyStrip s = s := by
  unfold strCleanCell
  by_cases h : badVals.contains (pyStrip (cellToStr v)) = true
  · rw [if_pos h]
    exact ⟨"no disponible", rfl, by decide, by decide⟩
  · rw [if_neg h]
    refine ⟨pyStrip (cellToStr v), rfl, ?_, pyStrip_idem _⟩
    intro he
    rw [he] at h
    exact h (by decide)

/-- `colClean` always yields a non-empty stripped string. -/
theorem colClean_clean (c : String) (v w : Cell) (h : colClean c v = some w) :
    ∃ s, w = Cell.str s ∧ s ≠ "" ∧ pyStrip s = s := by
  unfold colClean at h
  by_cases hc : c = "Ceco" ∨ c = "Legajo"
  · rw [if_pos hc] at h
    cases hn : numKeyStage v with
    | none => rw [hn] at h; cases h
    | some w2 =>
      rw [hn] at h
      cases h
      obtain ⟨s, hs⟩ := strCleanCell_clean w2
      exact ⟨s, hs.1, hs.2⟩
  · rw [if_neg hc] at h
    cases h
    obtain ⟨s, hs⟩ := strCleanCell_clean v
    exact ⟨s, hs.1, hs.2⟩

/-- Full characterization of one key-column processing step. -/
theorem processKeyCol_char (t : DF) (c : String) (t2 : DF) (hwf : WFdf t)
    (h : processKeyCol t c = some t2) :
    WFdf t2 ∧ t2.rows.length = t.rows.length ∧
    (t2.cols = t.cols ∨ (c ∉ t.cols ∧ t2.cols = t.cols ++ [c])) ∧
    (∀ r2 ∈ t2.rows, ∃ r ∈ t.rows,
      (∀ c', c' ≠ c → lookup r2 c' = lookup r c') ∧
      (∃ s, lookup r2 c = Cell.str s ∧ s ≠ "" ∧ pyStrip s = s ∧
        (c ∉ t.cols → s = "no disponible"))) := by
  unfold processKeyCol at h
  by_cases hc : c ∈ t.cols
  · rw [if_pos hc] at h
    rw [Option.map_eq_some'] at h
    obtain ⟨rows2, hm, ht2⟩ := h
    subst ht2
    have hrow : ∀ r2 ∈ rows2, ∃ r ∈ t.rows, ∃ v,
        colClean c (lookup r c) = some v ∧ r2 = setCell r c v := by
      intro r2 h2
      obtain ⟨r, hr, hfr⟩ := mapMO_some_mem _ t.rows rows2 hm r2 h2
      rw [Option.map_eq_some'] at hfr
      obtain ⟨v, hv, hr2⟩ := hfr
      exact ⟨r, hr, v, hv, hr2.symm⟩
    refine ⟨?_, mapMO_some_length _ t.rows rows2 hm, Or.inl rfl, ?_⟩
    · intro r2 h2
      obtain ⟨r, hr, v, _, hr2⟩ := hrow r2 h2
      subst hr2
      rw [keys_setCell]
      exact hwf r hr
    · intro r2 h2
      obtain ⟨r, hr, v, hv, hr2⟩ := hrow r2 h2
      subst hr2
      refine ⟨r, hr, fun c' hc' => lookup_setCell_ne r c c' v hc', ?_⟩
      obtain ⟨s, hws, hs1, hs2⟩ := colClean_clean c (lookup r c) v hv
      have hk : hasKey r c = true := by
        rw [hasKey_iff_mem, hwf r hr]
        exact hc
      exact ⟨s, by rw [lookup_setCell_self r c v hk, hws], hs1, hs2,
        fun hcc => absurd hc hcc⟩
  · rw [if_neg hc] at h
    cases h
    refine ⟨?_, by simp, Or.inr ⟨hc, rfl⟩, ?_⟩
    · intro r2 h2
      simp only [List.mem_map] at h2
      obtain ⟨r, hr, hr2⟩ := h2
      subst hr2
      simp only [List.map_append, List.map_cons, List.map_nil]
      rw [hwf r hr]
    · intro r2 h2
      simp only [List.mem_map] at h2
      obtain ⟨r, hr, hr2⟩ := h2
      subst hr2
      refine ⟨r, hr, fun c' hc' => lookup_append_single r c c' _ hc', ?_⟩
      have hk : hasKey r c = false := by
        rw [← Bool.not_eq_true, hasKey_iff_mem, hwf r hr]
        exact hc
      exact ⟨"no disponible", lookup_append_self r c _ hk, by decide, by decide, fun _ => rfl⟩

/-- One key-column step succeeds when the column is absent or every cell
cleans successfully. -/
theorem processKeyCol_isSome (t : DF) (c : String)
    (hsafe : c ∈ t.cols → ∀ r ∈ t.rows, (colClean c (lookup r c)).isSome) :
    (processKeyCol t c).isSome := by
  unfold processKeyCol
  by_cases hc : c ∈ t.cols
  · rw [if_pos hc]
    have h1 : (mapMO (fun r => (colClean c (lookup r c)).map (fun v => setCell r c v))
        t.rows).isSome := by
      refine mapMO_isSome _ t.rows (fun r hr => ?_)
      have h3 := hsafe hc r hr
      cases hcc : colClean c (lookup r c) with
      | none => rw [hcc] at h3; cases h3
      | some v => rfl
    cases hm : mapMO (fun r => (colClean c (lookup r c)).map (fun v => setCell r c v)) t.rows with
    | none => rw [hm] at h1; cases h1
    | some rs => rfl
  · rw [if_neg hc]
    rfl

/-- Invariants of the key-column fold: well-formedness, row count, column
membership outside the processed set, and lookup preservation outside the
processed set. -/
theorem keyColsFold_char :
    ∀ (cs : List String) (t t2 : DF), WFdf t → keyColsFold t cs = some t2 →
      WFdf t2 ∧ t2.rows.length = t.rows.length ∧
      (∀ c', c' ∉ cs → (c' ∈ t2.cols ↔ c' ∈ t.cols)) ∧ t.cols ⊆ t2.cols ∧
      (∀ r2 ∈ t2.rows, ∃ r ∈ t.rows, ∀ c', c' ∉ cs → lookup r2 c' = lookup r c') := by
  intro cs
  induction cs with
  | nil =>
    intro t t2 hwf h
    cases h
    exact ⟨hwf, rfl, fun _ _ => Iff.rfl, fun _ hm => hm,
      fun r2 h2 => ⟨r2, h2, fun _ _ => rfl⟩⟩
  | cons c cs ih =>
    intro t t2 hwf h
    cases hp : processKeyCol t c with
    | none => rw [keyColsFold, hp] at h; cases h
    | some t1 =>
      rw [keyColsFold, hp] at h
      obtain ⟨hwf1, hlen1, hcols1, hrows1⟩ := processKeyCol_char t c t1 hwf hp
      obtain ⟨hwf2, hlen2, hcols2, hsub2, hrows2⟩ := ih t1 t2 hwf1 h
      have hmem1 : ∀ c', c' ≠ c → (c' ∈ t1.cols ↔ c' ∈ t.cols) := by
        intro c' hc'
        rcases hcols1 with heq | ⟨_, heq⟩
        · rw [heq]
        · rw [heq]
          simp [hc']
      refine ⟨hwf2, hlen2.trans hlen1, ?_, ?_, ?_⟩
      · intro c' hc'
        have h1 : c' ≠ c := fun he => hc' (he ▸ List.mem_cons_self c cs)
        have h2 : c' ∉ cs := fun he => hc' (List.mem_cons_of_mem _ he)
        rw [hcols2 c' h2, hmem1 c' h1]
      · intro c' hc'
        refine hsub2 ?_
        rcases hcols1 with heq | ⟨_, heq⟩
        · rw [heq]; exact hc'
        · rw [heq]; exact List.mem_append_left _ hc'
      · intro r2 h2
        obtain ⟨r1, hr1, hpre2⟩ := hrows2 r2 h2
        obtain ⟨r, hr, hpre1, _⟩ := hrows1 r1 hr1
        refine ⟨r, hr, fun c' hc' => ?_⟩
        have h1 : c' ≠ c := fun he => hc' (he ▸ List.mem_cons_self c cs)
        have h3 : c' ∉ cs := fun he => hc' (List.mem_cons_of_mem _ he)
        rw [hpre2 c' h3, hpre1 c' h1]

/-- After the fold, every processed column holds a non-empty stripped string
in every row. -/
theorem keyColsFold_clean :
    ∀ (cs : List String) (t t2 : DF), cs.Nodup → WFdf t → keyColsFold t cs = some t2 →
      ∀ c ∈ cs, ∀ r2 ∈ t2.rows, ∃ s, lookup r2 c = Cell.str s ∧ s ≠ "" ∧ pyStrip s = s := by
  intro cs
  induction cs with
  | nil => intro t t2 _ _ _ c hc; cases hc
  | cons c0 cs ih =>
    intro t t2 hnd hwf h c hc
    cases hp : processKeyCol t c0 with
    | none => rw [keyColsFold, hp] at h; cases h
    | some t1 =>
      rw [keyColsFold, hp] at h
      obtain ⟨hwf1, _, _, hrows1⟩ := processKeyCol_char t c0 t1 hwf hp
      rcases List.mem_cons.mp hc with rfl | hc2
      · intro r2 h2
        obtain ⟨_, _, _, _, hrows2⟩ := keyColsFold_char cs t1 t2 hwf1 h
        obtain ⟨r1, hr1, hpre⟩ := hrows2 r2 h2
        obtain ⟨_, _, _, ⟨s, hs1, hs2, hs3, _⟩⟩ := hrows1 r1 hr1
        have hc0 : c ∉ cs := (List.nodup_cons.mp hnd).1
        exact ⟨s, by rw [hpre c hc0, hs1], hs2, hs3⟩
      · exact ih t1 t2 (List.nodup_cons.mp hnd).2 hwf1 h c hc2

/-- A key column absent before the fold ends up synthesized with the
sentinel value in every row. -/
theorem keyColsFold_absent :
    ∀ (cs : List String) (t t2 : DF), cs.Nodup → WFdf t → keyColsFold t cs = some t2 →
      ∀ c ∈ cs, c ∉ t.cols → ∀ r2 ∈ t2.rows, lookup r2 c = Cell.str "no disponible" := by
  intro cs
  induction cs with
  | nil => intro t t2 _ _ _ c hc; cases hc
  | cons c0 cs ih =>
    intro t t2 hnd hwf h c hc habs
    cases hp : processKeyCol t c0 with
    | none => rw [keyColsFold, hp] at h; cases h
    | some t1 =>
      rw [keyColsFold, hp] at h
      obtain ⟨hwf1, _, hcols1, hrows1⟩ := processKeyCol_char t c0 t1 hwf hp
      rcases List.mem_cons.mp hc with rfl | hc2
      · intro r2 h2
        obtain ⟨_, _, _, _, hrows2⟩ := keyColsFold_char cs t1 t2 hwf1 h
        obtain ⟨r1, hr1, hpre⟩ := hrows2 r2 h2
        obtain ⟨_, _, _, ⟨s, hs1, _, _, hs4⟩⟩ := hrows1 r1 hr1
        have hc0 : c ∉ cs := (List.nodup_cons.mp hnd).1
        rw [hpre c hc0, hs1, hs4 habs]
      · have hne : c ≠ c0 := by
          intro he
          exact (List.nodup_cons.mp hnd).1 (he ▸ hc2)
        have habs1 : c ∉ t1.cols := by
          rcases hcols1 with heq | ⟨_, heq⟩
          · rw [heq]; exact habs
          · rw [heq]
            intro hm
            rcases List.mem_append.mp hm with hm | hm
            · exact habs hm
            · rcases List.mem_cons.mp hm with he | he
              · exact hne he
              · cases he
        exact ih t1 t2 (List.nodup_cons.mp hnd).2 hwf1 h c hc2 habs1

/-- The fold succeeds whenever every present key column cleans successfully
on every row. -/
theorem keyColsFold_isSome :
    ∀ (cs : List String) (t : DF), cs.Nodup → WFdf t →
      (∀ c ∈ cs, c ∈ t.cols → ∀ r ∈ t.rows, (colClean c (lookup r c)).isSome) →
      (keyColsFold t cs).isSome := by
  intro cs
  induction cs with
  | nil => intro t _ _ _; rfl
  | cons c0 cs ih =>
    intro t hnd hwf hsafe
    have h0 : (processKeyCol t c0).isSome :=
      processKeyCol_isSome t c0 (hsafe c0 (List.mem_cons_self c0 cs))
    cases hp : processKeyCol t c0 with
    | none => rw [hp] at h0; cases h0
    | some t1 =>
      rw [keyColsFold, hp]
      obtain ⟨hwf1, _, hcols1, hrows1⟩ := processKeyCol_char t c0 t1 hwf hp
      refine ih t1 (List.nodup_cons.mp hnd).2 hwf1 ?_
      intro c hc hmem r1 hr1
      have hne : c ≠ c0 := by
        intro he
        exact (List.nodup_cons.mp hnd).1 (he ▸ hc)
      have hmem0 : c ∈ t.cols := by
        rcases hcols1 with heq | ⟨_, heq⟩
        · rw [heq] at hmem; exact hmem
        · rw [heq] at hmem
          rcases List.mem_append.mp hmem with hm | hm
          · exact hm
          · rcases List.mem_cons.mp hm with he | he
            · exact absurd he hne
            · cases he
      obtain ⟨r, hr, hpre, _⟩ := hrows1 r1 hr1
      rw [hpre c hne]
      exact hsafe c (List.mem_cons_of_mem _ hc) hmem0 r hr

/-- Header stripping preserves well-formedness. -/
theorem WF_stripHeaders (t : DF) (h : WFdf t) : WFdf (stripHeaders t) := by
  intro r2 h2
  simp only [stripHeaders, List.mem_map] at h2
  obtain ⟨r, hr, hr2⟩ := h2
  subst hr2
  simp only [stripHeaders, List.map_map]
  rw [show ((fun p : String × Cell => Prod.fst p) ∘ fun p : String × Cell =>
    (pyStrip p.1, p.2)) = fun p : String × Cell => pyStrip p.1 from rfl]
  rw [show (fun p : String × Cell => pyStrip p.1)
    = pyStrip ∘ (fun p : String × Cell => p.1) from rfl, ← List.map_map]
  rw [h r hr]

/-- Filtering out a column keeps keys aligned with labels. -/
theorem keys_filter_ne (r : Row) (u : String) :
    (r.filter (fun p => p.1 ≠ u)).map Prod.fst = (r.map Prod.fst).filter (fun c => c ≠ u) := by
  induction r with
  | nil => rfl
  | cons p r ih =>
    rw [List.filter_cons, List.map_cons, List.filter_cons]
    by_cases h : p.1 = u
    · rw [if_neg (by simp [h]), if_neg (by simp [h])]
      exact ih
    · rw [if_pos (by simp [h]), if_pos (by simp [h]), List.map_cons, ih]

/-- Dropping the unnamed column preserves well-formedness. -/
theorem WF_dropUnnamed (t : DF) (h : WFdf t) : WFdf (dropUnnamed t) := by
  unfold dropUnnamed
  by_cases hu : "Unnamed: 0" ∈ t.cols
  · rw [if_pos hu]
    intro r2 h2
    simp only [List.mem_map] at h2
    obtain ⟨r, hr, hr2⟩ := h2
    subst hr2
    rw [keys_filter_ne, h r hr]
  · rw [if_neg hu]
    exact h

/-- The period stage preserves well-formedness. -/
theorem WF_periodStage (t : DF) (h : WFdf t) : WFdf (periodStage t) := by
  intro r2 h2
  simp only [periodStage, List.mem_filterMap] at h2
  obtain ⟨r, hr, hr2⟩ := h2
  cases hp : parsePeriod (lookup r "Período") with
  | none => rw [hp] at hr2; cases hr2
  | some d =>
    rw [hp] at hr2
    cases hr2
    rw [keys_setCol, keys_setCol, keys_setCell, h r hr]
    rfl

/-- Characterization of the rows surviving the period stage. -/
theorem periodStage_char (t : DF) (hwf : WFdf t) (hper : "Período" ∈ t.cols) :
    ∀ r2 ∈ (periodStage t).rows, ∃ r ∈ t.rows, ∃ d : PDate,
      parsePeriod (lookup r "Período") = some d ∧
      lookup r2 "Período" = Cell.date d ∧
      lookup r2 "Mes_Num" = Cell.num ((d.month.val + 1 : ℕ) : ℚ) ∧
      lookup r2 "Mes" = Cell.str (meses_es d.month) ∧
      ∀ c', c' ≠ "Período" → c' ≠ "Mes_Num" → c' ≠ "Mes" → lookup r2 c' = lookup r c' := by
  intro r2 h2
  simp only [periodStage, List.mem_filterMap] at h2
  obtain ⟨r, hr, hr2⟩ := h2
  cases hp : parsePeriod (lookup r "Período") with
  | none => rw [hp] at hr2; cases hr2
  | some d =>
    rw [hp] at hr2
    cases hr2
    have hk : hasKey r "Período" = true := by
      rw [hasKey_iff_mem, hwf r hr]
      exact hper
    refine ⟨r, hr, d, hp, ?_, ?_, ?_, ?_⟩
    · rw [lookup_setCol_ne _ "Mes" "Período" _ (by decide),
        lookup_setCol_ne _ "Mes_Num" "Período" _ (by decide),
        lookup_setCell_self r _ _ hk]
    · rw [lookup_setCol_ne _ "Mes" "Mes_Num" _ (by decide), lookup_setCol_self]
    · rw [lookup_setCol_self]
    · intro c' h1 h2 h3
      rw [lookup_setCol_ne _ "Mes" c' _ h3, lookup_setCol_ne _ "Mes_Num" c' _ h2,
        lookup_setCell_ne _ _ _ _ h1]

/-- `filterMap` and the corresponding `filter` have the same length. -/
theorem filterMap_length_filter {α β : Type} (f : α → Option β) :
    ∀ l : List α, (l.filterMap f).length = (l.filter (fun a => (f a).isSome)).length := by
  intro l
  induction l with
  | nil => rfl
  | cons a l ih =>
    cases hf : f a with
    | none => simp [List.filterMap_cons, List.filter_cons, hf, ih]
    | some b => simp [List.filterMap_cons, List.filter_cons, hf, ih]

/-- The period stage keeps exactly the rows with a parseable period. -/
theorem periodStage_length (t : DF) :
    (periodStage t).rows.length
      = (t.rows.filter (fun r => (parsePeriod (lookup r "Período")).isSome)).length := by
  show (t.rows.filterMap _).length = _
  rw [filterMap_length_filter]
  congr 1
  refine List.filter_congr (fun r _ => ?_)
  cases hp : parsePeriod (lookup r "Período") with
  | none => rfl
  | some d => rfl

/-- Any target of the rename map is either fixed or one of the two new names. -/
theorem renameMap_cases (c0 c : String) (h : renameMap c0 = c) :
    c0 = c ∨ c = "Clasificacion_Ministerio" ∨ c = "Legajo" := by
  unfold renameMap at h
  by_cases h1 : c0 = "Clasificación Ministerio de Hacienda"
  · rw [if_pos h1] at h
    exact Or.inr (Or.inl h.symm)
  · rw [if_neg h1] at h
    by_cases h2 : c0 = "Nro. de Legajo"
    · rw [if_pos h2] at h
      exact Or.inr (Or.inr h.symm)
    · rw [if_neg h2] at h
      exact Or.inl h

/-- Names other than the two rename sources are fixed by the rename map. -/
theorem renameMap_fix (c : String) (h1 : c ≠ "Clasificación Ministerio de Hacienda")
    (h2 : c ≠ "Nro. de Legajo") : renameMap c = c := by
  unfold renameMap
  rw [if_neg h1, if_neg h2]

/-- Renaming does not disturb lookups of names untouched by the rename map. -/
theorem lookup_rename (r : Row) (c : String)
    (h1 : c ≠ "Clasificacion_Ministerio") (h2 : c ≠ "Legajo")
    (h3 : c ≠ "Clasificación Ministerio de Hacienda") (h4 : c ≠ "Nro. de Legajo") :
    lookup (r.map (fun p => (renameMap p.1, p.2))) c = lookup r c := by
  induction r with
  | nil => rfl
  | cons p r ih =>
    rw [List.map_cons, lookup_cons, lookup_cons]
    by_cases hp : p.1 = c
    · rw [if_pos hp, if_pos (by rw [show (renameMap p.1, p.2).1 = renameMap p.1 from rfl,
        hp, renameMap_fix c h3 h4])]
    · rw [if_neg hp, if_neg (fun hc : (renameMap p.1, p.2).1 = c => ?_)]
      · exact ih
      · rcases renameMap_cases p.1 c hc with he | he | he
        · exact hp he
        · exact h1 he
        · exact h2 he

/-- Renaming preserves well-formedness. -/
theorem WF_renameStage (t : DF) (h : WFdf t) : WFdf (renameStage t) := by
  intro r2 h2
  simp only [renameStage, List.mem_map] at h2
  obtain ⟨r, hr, hr2⟩ := h2
  subst hr2
  simp only [renameStage, List.map_map]
  rw [show ((fun p : String × Cell => Prod.fst p) ∘ fun p : String × Cell =>
    (renameMap p.1, p.2)) = renameMap ∘ (fun p : String × Cell => p.1) from rfl,
    ← List.map_map, h r hr]

/-- Characterization of the headcount coercion stage. -/
theorem dotStage_char (t : DF) (hwf : WFdf t) :
    ∀ r2 ∈ (dotStage t).rows, ∃ r ∈ t.rows,
      (∀ c', c' ≠ "Dotación" → lookup r2 c' = lookup r c') ∧
      ("Dotación" ∈ t.cols → lookup r2 "Dotación" = dotClean (lookup r "Dotación")) := by
  unfold dotStage
  by_cases hd : "Dotación" ∈ t.cols
  · rw [if_pos hd]
    intro r2 h2
    simp only [List.mem_map] at h2
    obtain ⟨r, hr, hr2⟩ := h2
    subst hr2
    refine ⟨r, hr, fun c' hc' => lookup_setCell_ne r _ c' _ hc', fun _ => ?_⟩
    refine lookup_setCell_self r _ _ ?_
    rw [hasKey_iff_mem, hwf r hr]
    exact hd
  · rw [if_neg hd]
    intro r2 h2
    exact ⟨r2, h2, fun _ _ => rfl, fun hm => absurd hm hd⟩

/-- The headcount stage preserves well-formedness. -/
theorem WF_dotStage (t : DF) (h : WFdf t) : WFdf (dotStage t) := by
  unfold dotStage
  by_cases hd : "Dotación" ∈ t.cols
  · rw [if_pos hd]
    intro r2 h2
    simp only [List.mem_map] at h2
    obtain ⟨r, hr, hr2⟩ := h2
    subst hr2
    rw [keys_setCell, h r hr]
  · rw [if_neg hd]
    exact h

/-- The headcount stage preserves the row count. -/
theorem dotStage_length (t : DF) : (dotStage t).rows.length = t.rows.length := by
  unfold dotStage
  by_cases hd : "Dotación" ∈ t.cols
  · rw [if_pos hd]; simp
  · rw [if_neg hd]

/-- The headcount stage preserves labels. -/
theorem dotStage_cols (t : DF) : (dotStage t).cols = t.cols := by
  unfold dotStage
  by_cases hd : "Dotación" ∈ t.cols
  · rw [if_pos hd]
  · rw [if_neg hd]

/-- Rows surviving the final dropna come from the previous stage. -/
theorem dropnaStage_sub (t : DF) : ∀ r ∈ (dropnaStage t).rows, r ∈ t.rows := by
  intro r h
  exact List.mem_of_mem_filter h

/-- When no targeted cell is missing, the final dropna keeps every row. -/
theorem dropnaStage_eq (t : DF)
    (h : ∀ r ∈ t.rows, ∀ c ∈ fourDims, isNACell (lookup r c) = false) :
    (dropnaStage t).rows = t.rows := by
  unfold dropnaStage
  refine List.filter_eq_self.mpr (fun r hr => ?_)
  rw [List.all_eq_true]
  intro c hc
  rw [h r hr c hc]
  rfl

/-- Destructing a successful load into its stages. -/
theorem load_ok_elim (t df : DF) (h : load_data t = LoadResult.ok df) :
    "Período" ∈ (dropUnnamed (stripHeaders t)).cols ∧
    ∃ t5, keyColsStage (afterRename t) = some t5 ∧ df = dropnaStage (dotStage t5) := by
  unfold load_data at h
  by_cases hper : "Período" ∈ (dropUnnamed (stripHeaders t)).cols
  · rw [if_pos hper] at h
    cases hk : keyColsStage (renameStage (periodStage (dropUnnamed (stripHeaders t)))) with
    | none => rw [hk] at h; cases h
    | some t5 =>
      rw [hk] at h
      cases h
      exact ⟨hper, t5, hk, rfl⟩
  · rw [if_neg hper] at h
    cases h

/-- Well-formedness after the rename stage. -/
theorem WF_afterRename (t : DF) (h : WFdf t) : WFdf (afterRename t) :=
  WF_renameStage _ (WF_periodStage _ (WF_dropUnnamed _ (WF_stripHeaders _ h)))

theorem keyFilterColumns_nodup : keyFilterColumns.Nodup := by decide

/-- After a successful load, every key filter column holds a non-empty
stripped string in every row. -/
theorem load_clean_dims (t df : DF) (hwf : WFdf t) (h : load_data t = LoadResult.ok df) :
    ∀ c ∈ keyFilterColumns, ∀ r ∈ df.rows,
      ∃ s, lookup r c = Cell.str s ∧ s ≠ "" ∧ pyStrip s = s := by
  obtain ⟨hper, t5, hk, hdf⟩ := load_ok_elim t df h
  have hwf4 : WFdf (afterRename t) := WF_afterRename t hwf
  have hclean := keyColsFold_clean keyFilterColumns (afterRename t) t5
    keyFilterColumns_nodup hwf4 hk
  have hwf5 : WFdf t5 := (keyColsFold_char keyFilterColumns (afterRename t) t5 hwf4 hk).1
  intro c hc r hr
  subst hdf
  have hr6 : r ∈ (dotStage t5).rows := dropnaStage_sub _ r hr
  obtain ⟨r5, hr5, hpre, _⟩ := dotStage_char t5 hwf5 r hr6
  have hdot : ∀ c0 ∈ keyFilterColumns, c0 ≠ "Dotación" := by decide
  obtain ⟨s, hs1, hs2, hs3⟩ := hclean c hc r5 hr5
  exact ⟨s, by rw [hpre c (hdot c hc), hs1], hs2, hs3⟩

/-- A successful load keeps exactly the rows that survived the period stage:
the categorical dropna never removes a row. -/
theorem load_length_eq (t df : DF) (hwf : WFdf t) (h : load_data t = LoadResult.ok df) :
    df.rows.length = (afterRename t).rows.length := by
  obtain ⟨hper, t5, hk, hdf⟩ := load_ok_elim t df h
  have hwf4 := WF_afterRename t hwf
  have hchar := keyColsFold_char keyFilterColumns (afterRename t) t5 hwf4 hk
  have hclean := keyColsFold_clean keyFilterColumns (afterRename t) t5
    keyFilterColumns_nodup hwf4 hk
  subst hdf
  have hsub : ∀ c0 ∈ fourDims, c0 ∈ keyFilterColumns := by decide
  have hdot : ∀ c0 ∈ fourDims, c0 ≠ "Dotación" := by decide
  have hnd : ∀ r ∈ (dotStage t5).rows, ∀ c ∈ fourDims, isNACell (lookup r c) = false := by
    intro r hr c hc
    obtain ⟨r5, hr5, hpre, _⟩ := dotStage_char t5 hchar.1 r hr
    obtain ⟨s, hs1, _, _⟩ := hclean c (hsub c hc) r5 hr5
    rw [hpre c (hdot c hc), hs1]
    rfl
  rw [show (dropnaStage (dotStage t5)).rows = (dotStage t5).rows from dropnaStage_eq _ hnd]
  rw [dotStage_length, hchar.2.1]

/-- The rename stage keeps the row count of the period stage. -/
theorem afterRename_length (t : DF) :
    (afterRename t).rows.length = (afterPeriod t).rows.length := by
  simp [afterRename, renameStage]

/-- The period-stage row count is the number of parseable rows. -/
theorem afterPeriod_length (t : DF) : (afterPeriod t).rows.length = countParsed t :=
  periodStage_length _

/-- After a successful load, every retained row carries a parsed period date
and the month fields derived from it. -/
theorem load_period_trace (t df : DF) (hwf : WFdf t) (h : load_data t = LoadResult.ok df) :
    ∀ r ∈ df.rows, ∃ d : PDate,
      lookup r "Período" = Cell.date d ∧
      lookup r "Mes_Num" = Cell.num ((d.month.val + 1 : ℕ) : ℚ) ∧
      lookup r "Mes" = Cell.str (meses_es d.month) := by
  obtain ⟨hper, t5, hk, hdf⟩ := load_ok_elim t df h
  have hwf2 : WFdf (dropUnnamed (stripHeaders t)) := WF_dropUnnamed _ (WF_stripHeaders _ hwf)
  have hwf4 := WF_afterRename t hwf
  have hchar := keyColsFold_char keyFilterColumns (afterRename t) t5 hwf4 hk
  intro r hr
  subst hdf
  have hr6 : r ∈ (dotStage t5).rows := dropnaStage_sub _ r hr
  obtain ⟨r5, hr5, hpre6, _⟩ := dotStage_char t5 hchar.1 r hr6
  obtain ⟨r4, hr4, hpre5⟩ := hchar.2.2.2.2 r5 hr5
  simp only [afterRename, renameStage, List.mem_map] at hr4
  obtain ⟨r3, hr3, hr43⟩ := hr4
  obtain ⟨r2, _, d, _, hv1, hv2, hv3, _⟩ := periodStage_char _ hwf2 hper r3 hr3
  refine ⟨d, ?_, ?_, ?_⟩
  · rw [hpre6 "Período" (by decide), hpre5 "Período" (by decide), ← hr43,
      lookup_rename r3 "Período" (by decide) (by decide) (by decide) (by decide), hv1]
  · rw [hpre6 "Mes_Num" (by decide), hpre5 "Mes_Num" (by decide), ← hr43,
      lookup_rename r3 "Mes_Num" (by decide) (by decide) (by decide) (by decide), hv2]
  · rw [hpre6 "Mes" (by decide), hpre5 "Mes" (by decide), ← hr43,
      lookup_rename r3 "Mes" (by decide) (by decide) (by decide) (by decide), hv3]

/-- `colSum` over a cons. -/
theorem colSum_cons (r : Row) (rows : List Row) (c : String) :
    colSum (r :: rows) c = cellQ (lookup r c) + colSum rows c := by
  simp [colSum]

/-- Sums of pointwise sums split. -/
theorem sum_map_add {α : Type} (M : List α) (f g : α → ℚ) :
    (M.map (fun m => f m + g m)).sum = (M.map f).sum + (M.map g).sum := by
  induction M with
  | nil => simp
  | cons m M ih =>
    simp only [List.map_cons, List.sum_cons, ih]
    ring

/-- Summing an indicator over a duplicate-free list containing the key. -/
theorem sum_indicator (M : List String) (s : String) (x : ℚ) (hnd : M.Nodup) (hs : s ∈ M) :
    (M.map (fun m => if s = m then x else 0)).sum = x := by
  induction M with
  | nil => cases hs
  | cons m M ih =>
    rcases List.mem_cons.mp hs with rfl | hs2
    · have hz : (M.map (fun m => if s = m then x else 0)).sum = 0 := by
        refine List.sum_eq_zero (fun y hy => ?_)
        simp only [List.mem_map] at hy
        obtain ⟨m2, hm2, hy2⟩ := hy
        have hne : s ≠ m2 := fun he => (List.nodup_cons.mp hnd).1 (he ▸ hm2)
        rw [← hy2, if_neg hne]
      rw [List.map_cons, List.sum_cons, hz, if_pos rfl, add_zero]
    · have hne : s ≠ m := fun he => (List.nodup_cons.mp hnd).1 (he ▸ hs2)
      simp only [List.map_cons, List.sum_cons, if_neg hne,
        ih (List.nodup_cons.mp hnd).2 hs2]
      ring

/-- Partitioning a column sum over the groups of a key column: the group sums
over any duplicate-free list of keys covering every row add up to the whole
column sum. -/
theorem group_partition (c1 c2 : String) (M : List String) (hnd : M.Nodup) :
    ∀ rows : List Row, (∀ r ∈ rows, ∃ s, rowStr r c1 = some s ∧ s ∈ M) →
      (M.map (fun m => colSum (rows.filter (fun r => rowStr r c1 == some m)) c2)).sum
        = colSum rows c2 := by
  intro rows
  induction rows with
  | nil =>
    intro _
    rw [show colSum [] c2 = 0 from rfl]
    refine List.sum_eq_zero (fun y hy => ?_)
    simp only [List.mem_map] at hy
    obtain ⟨m, _, hy2⟩ := hy
    rw [← hy2]
    rfl
  | cons r rows ih =>
    intro hcov
    obtain ⟨s, hs1, hs2⟩ := hcov r (List.mem_cons_self r rows)
    have hstep : ∀ m : String,
        colSum ((r :: rows).filter (fun r2 => rowStr r2 c1 == some m)) c2
          = (if s = m then cellQ (lookup r c2) else 0)
            + colSum (rows.filter (fun r2 => rowStr r2 c1 == some m)) c2 := by
      intro m
      rw [List.filter_cons]
      by_cases hm : s = m
      · rw [if_pos (by rw [hs1, hm]; simp), if_pos hm, colSum_cons]
      · rw [if_neg (by rw [hs1]; simp [hm]), if_neg hm]
        ring
    rw [List.map_congr_left (fun m _ => hstep m), sum_map_add,
      sum_indicator M s (cellQ (lookup r c2)) hnd hs2,
      ih (fun r2 h2 => hcov r2 (List.mem_cons_of_mem _ h2)), colSum_cons]

/-- The sentinel value never appears in an option list. -/
theorem sentinel_not_in_options (df : DF) (c : String) :
    "no disponible" ∉ get_sorted_unique_options df c := by
  unfold get_sorted_unique_options
  by_cases hc : c ∈ df.cols
  · rw [if_pos hc]
    intro hmem
    unfold sortForCol at hmem
    by_cases hm : c = "Mes"
    · rw [if_pos hm] at hmem
      have h2 := (List.perm_insertionSort
        (fun a b : String => monthKey a ≤ monthKey b) _).mem_iff.mp hmem
      simp at h2
    · rw [if_neg hm] at hmem
      have h2 := (List.perm_insertionSort pyLe _).mem_iff.mp hmem
      simp at h2
  · rw [if_neg hc]
    intro hmem
    cases hmem

/-- The sentinel value never appears in the cascaded option list. -/
theorem sentinel_not_in_avail (df : DF) (sels : Sels) (c : String) :
    "no disponible" ∉ get_available_options df sels c :=
  sentinel_not_in_options _ c

/-- Membership characterization of `apply_filters`. -/
theorem mem_apply_filters (rows : List Row) (sels : Sels) (r : Row) :
    r ∈ apply_filters rows sels ↔
      r ∈ rows ∧ ∀ cv ∈ sels, cv.2 ≠ [] → isinB (lookup r cv.1) cv.2 = true := by
  rw [apply_filters_eq_filter, List.mem_filter]
  constructor
  · rintro ⟨h1, h2⟩
    refine ⟨h1, fun cv hcv hne => ?_⟩
    rw [List.all_eq_true] at h2
    have := h2 cv hcv
    rcases Bool.or_eq_true_iff.mp this with he | he
    · rw [List.isEmpty_iff] at he
      exact absurd he hne
    · exact he
  · rintro ⟨h1, h2⟩
    refine ⟨h1, ?_⟩
    rw [List.all_eq_true]
    intro cv hcv
    by_cases hne : cv.2 = []
    · simp [hne]
    · rw [h2 cv hcv hne]
      simp

/-- Sorting for a dimension preserves membership. -/
theorem sortForCol_mem (c : String) (l : List String) (s : String) :
    s ∈ sortForCol c l ↔ s ∈ l := by
  unfold sortForCol
  by_cases hm : c = "Mes"
  · rw [if_pos hm]
    exact (List.perm_insertionSort _ l).mem_iff
  · rw [if_neg hm]
    exact (List.perm_insertionSort _ l).mem_iff

/-- Sorting for a dimension preserves distinctness. -/
theorem sortForCol_nodup (c : String) (l : List String) (h : l.Nodup) :
    (sortForCol c l).Nodup := by
  unfold sortForCol
  by_cases hm : c = "Mes"
  · rw [if_pos hm]
    exact (List.perm_insertionSort _ l).nodup_iff.mpr h
  · rw [if_neg hm]
    exact (List.perm_insertionSort _ l).nodup_iff.mpr h

/-- The month dimension is sorted chronologically by month key. -/
theorem sortForCol_sorted_mes (l : List String) :
    (sortForCol "Mes" l).Sorted (fun a b => monthKey a ≤ monthKey b) := by
  unfold sortForCol
  rw [if_pos rfl]
  exact List.sorted_insertionSort _ l

/-- Every other dimension is sorted lexicographically. -/
theorem sortForCol_sorted_other (c : String) (l : List String) (h : c ≠ "Mes") :
    (sortForCol c l).Sorted pyLe := by
  unfold sortForCol
  rw [if_neg h]
  exact List.sorted_insertionSort _ l

/-- C1: `apply_filters` returns exactly the records whose value lies in every
dimension's non-empty selection set; a dimension with an empty selection set
imposes no constraint, and the all-empty selection returns the record set
unchanged. -/
theorem C1_apply_filters_exact (rows : List Row) (sels : Sels) (r : Row) :
    apply_filters rows sels
      = rows.filter (fun r2 => sels.all (fun cv => cv.2.isEmpty || isinB (lookup r2 cv.1) cv.2))
    ∧ (r ∈ apply_filters rows sels ↔
        r ∈ rows ∧ ∀ cv ∈ sels, cv.2 ≠ [] → isinB (lookup r cv.1) cv.2 = true)
    ∧ apply_filters rows emptySelection = rows :=
  ⟨apply_filters_eq_filter sels rows, mem_apply_filters rows sels r,
    apply_filters_all_empty emptySelection (by decide) rows⟩

/-- Witness for C1 at a concrete record set and selection. -/
theorem C1_apply_filters_exact_witness :
    apply_filters dfSent.rows emptySelection = dfSent.rows :=
  (C1_apply_filters_exact dfSent.rows selsA rowSent).2.2

/-- C2 counterexample: a source row whose Gerencia value is missing is
retained by `load_data` (with the sentinel value substituted), not dropped. -/
theorem C2_missing_categorical_retained_cex :
    isOkB (load_data tNoGer) = true ∧ (okRows (load_data tNoGer)).length = 1 ∧
    ∀ r ∈ okRows (load_data tNoGer), lookup r "Gerencia" = Cell.str "no disponible" :=
  ⟨by decide, by decide, by decide⟩

/-- C2 (amended): every record retained by normalization has non-empty,
whitespace-trimmed string values for all four categorical dimensions; but a
source row missing such a value is retained with the sentinel
`'no disponible'` substituted rather than dropped — the categorical dropna
removes no row, so the retained count equals the parseable-period count. -/
theorem C2_categoricals_nonempty_trimmed (t df : DF) (hwf : WFdf t)
    (hok : load_data t = LoadResult.ok df) :
    (∀ r ∈ df.rows, ∀ c ∈ fourDims, ∃ s, lookup r c = Cell.str s ∧ s ≠ "" ∧ pyStrip s = s)
    ∧ df.rows.length = countParsed t := by
  have hsub : ∀ c0 ∈ fourDims, c0 ∈ keyFilterColumns := by decide
  refine ⟨fun r hr c hc => load_clean_dims t df hwf hok c (hsub c hc) r hr, ?_⟩
  rw [load_length_eq t df hwf hok, afterRename_length, afterPeriod_length]

/-- Witness for C2 at a concrete load. -/
theorem C2_categoricals_nonempty_trimmed_witness :
    WFdf tGood ∧ load_data tGood = LoadResult.ok dfGood ∧
    ((∀ r ∈ dfGood.rows, ∀ c ∈ fourDims,
        ∃ s, lookup r c = Cell.str s ∧ s ≠ "" ∧ pyStrip s = s)
      ∧ dfGood.rows.length = countParsed tGood) :=
  ⟨by decide, by decide, C2_categoricals_nonempty_trimmed tGood dfGood (by decide) (by decide)⟩

/-- C5 counterexample: two inputs differing by one unparseable-period row
load to identical outputs while their rejected-row counts differ — so no
RowRejected count is returned alongside the records. -/
theorem C5_no_rejected_count_cex :
    load_data tGood = load_data tBad ∧ countRejected tGood = 0 ∧ countRejected tBad = 1 :=
  ⟨by decide, by decide, by decide⟩

/-- C5 (amended): rows whose period fails to parse are dropped entirely —
every retained row carries a parsed date and the month fields derived from
it, and the retained row count equals the parseable row count — but the
loader returns only the record set; no Diagnostics / RowRejected count
accompanies it. -/
theorem C5_bad_period_rows_dropped (t df : DF) (hwf : WFdf t)
    (hok : load_data t = LoadResult.ok df) :
    (∀ r ∈ df.rows, ∃ d : PDate,
      lookup r "Período" = Cell.date d ∧
      lookup r "Mes_Num" = Cell.num ((d.month.val + 1 : ℕ) : ℚ) ∧
      lookup r "Mes" = Cell.str (meses_es d.month))
    ∧ df.rows.length = countParsed t :=
  ⟨load_period_trace t df hwf hok,
    by rw [load_length_eq t df hwf hok, afterRename_length, afterPeriod_length]⟩

/-- Witness for C5 at a concrete load with one rejected row. -/
theorem C5_bad_period_rows_dropped_witness :
    WFdf tBad ∧ load_data tBad = LoadResult.ok dfGood ∧
    ((∀ r ∈ dfGood.rows, ∃ d : PDate,
        lookup r "Período" = Cell.date d ∧
        lookup r "Mes_Num" = Cell.num ((d.month.val + 1 : ℕ) : ℚ) ∧
        lookup r "Mes" = Cell.str (meses_es d.month))
      ∧ dfGood.rows.length = countParsed tBad) :=
  ⟨by decide, by decide, C5_bad_period_rows_dropped tBad dfGood (by decide) (by decide)⟩

/-- C7 counterexample: two tables with different column sets, both lacking
the period column, produce identical load results — the failure does not
name the columns actually found. -/
theorem C7_schema_error_cols_cex :
    load_data tColsA = load_data tColsB ∧ processedCols tColsA ≠ processedCols tColsB :=
  ⟨by decide, by decide⟩

/-- C7 (amended): when the period column is absent after header resolution
the loader aborts with the fixed error message naming the missing field and
returns no record set at all — but the message does not include the columns
actually found. -/
theorem C7_schema_error_abort (t : DF)
    (h : "Período" ∉ (dropUnnamed (stripHeaders t)).cols) :
    load_data t = LoadResult.schemaError periodoMsg
    ∧ (∃ pre post, periodoMsg = pre ++ "Período" ++ post)
    ∧ ∀ df, load_data t ≠ LoadResult.ok df := by
  have h1 : load_data t = LoadResult.schemaError periodoMsg := by
    unfold load_data
    rw [if_neg h]
  refine ⟨h1, ⟨"Error Crítico: La columna '", "' no se encuentra.", by decide⟩, ?_⟩
  intro df he
  rw [h1] at he
  cases he

/-- Witness for C7 at a concrete table lacking the period column. -/
theorem C7_schema_error_abort_witness :
    ("Período" ∉ (dropUnnamed (stripHeaders tColsA)).cols)
    ∧ (load_data tColsA = LoadResult.schemaError periodoMsg
      ∧ (∃ pre post, periodoMsg = pre ++ "Período" ++ post)
      ∧ ∀ df, load_data tColsA ≠ LoadResult.ok df) :=
  ⟨by decide, C7_schema_error_abort tColsA (by decide)⟩

/-- C8 counterexample: a fractional headcount of 3/2 is loaded as 1 —
truncated, not preserved. -/
theorem C8_fractional_truncated_cex :
    isOkB (load_data tFrac) = true
    ∧ (∀ r ∈ okRows (load_data tFrac), lookup r "Dotación" = Cell.num 1)
    ∧ (okRows (load_data tFrac)).length = 1
    ∧ Rat.divInt 3 2 ≠ (1 : ℚ) :=
  ⟨by decide, by decide, by decide, by decide⟩

/-- C8 (amended): the headcount is coerced with missing/unparseable values
becoming exactly 0, but fractional values are truncated toward zero to
integers rather than preserved: every loaded headcount is an integer. -/
theorem C8_dotacion_coercion (t df : DF) (hwf : WFdf t)
    (hok : load_data t = LoadResult.ok df) (hdot : "Dotación" ∈ (afterRename t).cols) :
    (∀ r ∈ df.rows, ∃ n : Int, lookup r "Dotación" = Cell.num (n : ℚ))
    ∧ dotClean Cell.empty = Cell.num 0
    ∧ (∀ s, parseNumStr s = none → dotClean (Cell.str s) = Cell.num 0)
    ∧ (∀ q : ℚ, dotClean (Cell.num q) = Cell.num ((ratTrunc q : Int) : ℚ))
    ∧ ratTrunc (Rat.divInt 3 2) = 1 := by
  obtain ⟨hper, t5, hk, hdf⟩ := load_ok_elim t df hok
  have hwf4 := WF_afterRename t hwf
  have hchar := keyColsFold_char keyFilterColumns (afterRename t) t5 hwf4 hk
  refine ⟨?_, by decide, ?_, fun q => rfl, by decide⟩
  · intro r hr
    subst hdf
    have hr6 := dropnaStage_sub _ r hr
    obtain ⟨r5, hr5, _, hself⟩ := dotStage_char t5 hchar.1 r hr6
    have hdot5 : "Dotación" ∈ t5.cols := hchar.2.2.2.1 hdot
    exact ⟨ratTrunc ((toNum (lookup r5 "Dotación")).getD 0), hself hdot5⟩
  · intro s hs
    unfold dotClean
    rw [show toNum (Cell.str s) = parseNumStr s from rfl, hs]
    decide

/-- Witness for C8 at a concrete load with a fractional headcount. -/
theorem C8_dotacion_coercion_witness :
    WFdf tFrac ∧ load_data tFrac = LoadResult.ok dfFrac
    ∧ ("Dotación" ∈ (afterRename tFrac).cols)
    ∧ ((∀ r ∈ dfFrac.rows, ∃ n : Int, lookup r "Dotación" = Cell.num (n : ℚ))
      ∧ dotClean Cell.empty = Cell.num 0
      ∧ (∀ s, parseNumStr s = none → dotClean (Cell.str s) = Cell.num 0)
      ∧ (∀ q : ℚ, dotClean (Cell.num q) = Cell.num ((ratTrunc q : Int) : ℚ))
      ∧ ratTrunc (Rat.divInt 3 2) = 1) :=
  ⟨by decide, by decide, by decide,
    C8_dotacion_coercion tFrac dfFrac (by decide) (by decide) (by decide)⟩

/-- C9: a key dimension column absent from the input table does not make
normalization fail: the load succeeds, the column is synthesized with the
sentinel `'no disponible'` in every record, no row is dropped beyond the
period filter, and any present value whose trimmed string form is one of
the placeholder values is replaced by `'no disponible'`. -/
theorem C9_absent_keycol_synthesized (t : DF) (c : String) (hc : c ∈ keyFilterColumns)
    (hwf : WFdf t) (hper : "Período" ∈ (dropUnnamed (stripHeaders t)).cols)
    (hsafe : ∀ c2 ∈ keyFilterColumns, c2 ∈ (afterRename t).cols →
      ∀ r ∈ (afterRename t).rows, (colClean c2 (lookup r c2)).isSome)
    (habs : c ∉ (afterRename t).cols) :
    ∃ df, load_data t = LoadResult.ok df
      ∧ (∀ r ∈ df.rows, lookup r c = Cell.str "no disponible")
      ∧ df.rows.length = countParsed t
      ∧ (∀ v : Cell, badVals.contains (pyStrip (cellToStr v)) = true →
          strCleanCell v = Cell.str "no disponible") := by
  have hwf4 := WF_afterRename t hwf
  have hksome : (keyColsStage (afterRename t)).isSome :=
    keyColsFold_isSome keyFilterColumns (afterRename t) keyFilterColumns_nodup hwf4 hsafe
  cases hks : keyColsStage (afterRename t) with
  | none => rw [hks] at hksome; cases hksome
  | some t5 =>
    have hload : load_data t = LoadResult.ok (dropnaStage (dotStage t5)) := by
      unfold load_data
      rw [if_pos hper,
        show keyColsStage (renameStage (periodStage (dropUnnamed (stripHeaders t))))
          = some t5 from hks]
    refine ⟨dropnaStage (dotStage t5), hload, ?_, ?_, ?_⟩
    · have habs2 := keyColsFold_absent keyFilterColumns (afterRename t) t5
        keyFilterColumns_nodup hwf4 hks c hc habs
      intro r hr
      have hr6 := dropnaStage_sub _ r hr
      obtain ⟨r5, hr5, hpre, _⟩ :=
        dotStage_char t5 (keyColsFold_char _ _ _ hwf4 hks).1 r hr6
      have hdot : ∀ c0 ∈ keyFilterColumns, c0 ≠ "Dotación" := by decide
      rw [hpre c (hdot c hc), habs2 r5 hr5]
    · rw [load_length_eq t _ hwf hload, afterRename_length, afterPeriod_length]
    · intro v hv
      unfold strCleanCell
      rw [if_pos hv]

/-- Witness for C9: a table where every key column is absent. -/
theorem C9_absent_keycol_synthesized_witness :
    ("Gerencia" ∈ keyFilterColumns) ∧ WFdf tGood
    ∧ ("Período" ∈ (dropUnnamed (stripHeaders tGood)).cols)
    ∧ (∀ c2 ∈ keyFilterColumns, c2 ∈ (afterRename tGood).cols →
        ∀ r ∈ (afterRename tGood).rows, (colClean c2 (lookup r c2)).isSome)
    ∧ ("Gerencia" ∉ (afterRename tGood).cols)
    ∧ (∃ df, load_data tGood = LoadResult.ok df
        ∧ (∀ r ∈ df.rows, lookup r "Gerencia" = Cell.str "no disponible")
        ∧ df.rows.length = countParsed tGood
        ∧ (∀ v : Cell, badVals.contains (pyStrip (cellToStr v)) = true →
            strCleanCell v = Cell.str "no disponible")) :=
  ⟨by decide, by decide, by decide, by decide, by decide,
    C9_absent_keycol_synthesized tGood "Gerencia" (by decide) (by decide) (by decide)
      (by decide) (by decide)⟩

/-- C10: option lists never contain the sentinel `'no disponible'`, and a
record carrying the sentinel can never pass a filter whose non-empty
selection is drawn from the offered options. -/
theorem C10_sentinel_never_selectable (df df2 : DF) (sels sels2 : Sels)
    (target d : String) (vs : List String) (r : Row) (rows : List Row)
    (hmem : (d, vs) ∈ sels) (hne : vs ≠ [])
    (hsub : ∀ v ∈ vs, v ∈ get_available_options df2 sels2 d)
    (hr : lookup r d = Cell.str "no disponible") :
    "no disponible" ∉ get_sorted_unique_options df target
    ∧ "no disponible" ∉ get_available_options df sels target
    ∧ r ∉ apply_filters rows sels := by
  refine ⟨sentinel_not_in_options df target, sentinel_not_in_avail df sels target, ?_⟩
  intro hmem2
  rw [mem_apply_filters] at hmem2
  have h3 := hmem2.2 (d, vs) hmem hne
  rw [show ((d, vs) : String × List String).1 = d from rfl, hr] at h3
  have h4 : "no disponible" ∈ vs := by
    simpa [isinB] using h3
  exact sentinel_not_in_avail df2 sels2 d (hsub _ h4)

/-- Witness for C10 at a concrete frame, selection and sentinel row. -/
theorem C10_sentinel_never_selectable_witness :
    (("Gerencia", ["A"]) ∈ selsA) ∧ (["A"] ≠ ([] : List String))
    ∧ (∀ v ∈ ["A"], v ∈ get_available_options dfOpt [] "Gerencia")
    ∧ lookup rowSent "Gerencia" = Cell.str "no disponible"
    ∧ ("no disponible" ∉ get_sorted_unique_options dfOpt "Gerencia"
      ∧ "no disponible" ∉ get_available_options dfOpt selsA "Gerencia"
      ∧ rowSent ∉ apply_filters [rowSent] selsA) :=
  ⟨by decide, by decide, by decide, by decide,
    C10_sentinel_never_selectable dfOpt dfOpt selsA [] "Gerencia" "Gerencia" ["A"] rowSent
      [rowSent] (by decide) (by decide) (by decide) (by decide)⟩

/-- C6 counterexample: with a record carrying the sentinel value, the
computed options differ from the claim's sorted distinct values of the
dimension. -/
theorem C6_options_sentinel_cex :
    get_available_options dfSent [] "Gerencia" = ["A"]
    ∧ availableOptionsSpec dfSent [] "Gerencia" = ["A", "no disponible"]
    ∧ get_available_options dfSent [] "Gerencia" ≠ availableOptionsSpec dfSent [] "Gerencia" :=
  ⟨by decide, by decide, by decide⟩

/-- C6 (amended): the available options are exactly the distinct values of
the target dimension in the subset filtered by all other dimensions'
selections, except that the sentinel `'no disponible'` is removed; they are
duplicate-free, the month dimension is ordered chronologically by month
key, and every other dimension lexicographically. -/
theorem C6_available_options_amended (df : DF) (sels : Sels) (target : String)
    (h : target ∈ df.cols) :
    (∀ s, s ∈ get_available_options df sels target ↔
      (s ≠ "no disponible" ∧
        ∃ r ∈ apply_filters df.rows (sels.filter (fun cv => cv.1 ≠ target)),
          rowStr r target = some s))
    ∧ (get_available_options df sels target).Nodup
    ∧ (target = "Mes" →
        (get_available_options df sels target).Sorted (fun a b => monthKey a ≤ monthKey b))
    ∧ (target ≠ "Mes" → (get_available_options df sels target).Sorted pyLe) := by
  have hopts : get_available_options df sels target
      = sortForCol target
        ((uniqueFirst
          ((apply_filters df.rows (sels.filter (fun cv => cv.1 ≠ target))).filterMap
            (fun r => rowStr r target))).filter (fun v => v ≠ "no disponible")) := by
    unfold get_available_options get_sorted_unique_options
    rw [avail_loop_eq_apply, if_pos h]
  refine ⟨?_, ?_, ?_, ?_⟩
  · intro s
    rw [hopts, sortForCol_mem, List.mem_filter, uniqueFirst_mem, List.mem_filterMap]
    constructor
    · rintro ⟨⟨r, hr, hs⟩, h2⟩
      exact ⟨by simpa using h2, r, hr, hs⟩
    · rintro ⟨h2, r, hr, hs⟩
      exact ⟨⟨r, hr, hs⟩, by simpa using h2⟩
  · rw [hopts]
    exact sortForCol_nodup _ _ ((uniqueFirst_nodup _).filter _)
  · intro hm
    subst hm
    rw [hopts]
    exact sortForCol_sorted_mes _
  · intro hm
    rw [hopts]
    exact sortForCol_sorted_other _ _ hm

/-- Witness for C6 at a concrete frame and target dimension. -/
theorem C6_available_options_amended_witness :
    (get_available_options dfSent [] "Gerencia").Nodup :=
  (C6_available_options_amended dfSent [] "Gerencia" (by decide)).2.1

/-- C3: the synthetic Total row appended to the monthly table equals the sum
of the already-computed per-month group sums, and that value in turn equals
the total mass KPI computed directly over all records. -/
theorem C3_monthly_total_eq_total_mass (rows : List Row) (hne : rows ≠ [])
    (hm : ∀ r ∈ rows, (rowStr r "Mes").isSome = true) :
    (masa_mensual_display rows).getLast?
      = some ("Total", ((masa_mensual rows).map (fun e => e.2.1)).sum)
    ∧ ((masa_mensual rows).map (fun e => e.2.1)).sum = total_masa_salarial rows := by
  have hcov : ∀ r ∈ rows, ∃ s, rowStr r "Mes" = some s ∧
      s ∈ uniqueFirst (rows.filterMap (fun r2 => rowStr r2 "Mes")) := by
    intro r hr
    have h2 := hm r hr
    rw [Option.isSome_iff_exists] at h2
    obtain ⟨s, hs⟩ := h2
    exact ⟨s, hs, (uniqueFirst_mem _ _).mpr (List.mem_filterMap.mpr ⟨r, hr, hs⟩)⟩
  have hsum : ((masa_mensual rows).map (fun e => e.2.1)).sum = total_masa_salarial rows := by
    unfold masa_mensual total_masa_salarial
    rw [((List.perm_insertionSort (fun a b : String × ℚ × ℚ => a.2.2 ≤ b.2.2) _).map
      (fun e : String × ℚ × ℚ => e.2.1)).sum_eq, List.map_map,
      ((List.perm_insertionSort pyLe _).map _).sum_eq]
    exact group_partition "Mes" "Total Mensual" _ (uniqueFirst_nodup _) rows hcov
  refine ⟨?_, hsum⟩
  have hkey : uniqueFirst (rows.filterMap (fun r2 => rowStr r2 "Mes")) ≠ [] := by
    cases rows with
    | nil => exact absurd rfl hne
    | cons r rows2 =>
      obtain ⟨s, _, hs2⟩ := hcov r (List.mem_cons_self r rows2)
      exact List.ne_nil_of_mem hs2
  have hlen : masa_mensual rows ≠ [] := by
    unfold masa_mensual
    intro h0
    have h1 := congrArg List.length h0
    rw [(List.perm_insertionSort (fun a b : String × ℚ × ℚ => a.2.2 ≤ b.2.2) _).length_eq,
      List.length_map, (List.perm_insertionSort pyLe _).length_eq] at h1
    simp only [List.length_nil] at h1
    exact hkey (List.length_eq_zero.mp h1)
  have hbase : ((masa_mensual rows).map (fun e => (e.1, e.2.1))).isEmpty = false := by
    by_contra hcon
    rw [Bool.not_eq_false, List.isEmpty_iff] at hcon
    exact hlen (List.map_eq_nil_iff.mp hcon)
  unfold masa_mensual_display
  rw [if_neg (by rw [hbase]; exact Bool.false_ne_true), List.getLast?_concat, List.map_map]
  rfl

/-- Witness for C3 at a concrete two-month record set. -/
theorem C3_monthly_total_eq_total_mass_witness :
    (rowsMes ≠ []) ∧ (∀ r ∈ rowsMes, (rowStr r "Mes").isSome = true)
    ∧ ((masa_mensual_display rowsMes).getLast?
        = some ("Total", ((masa_mensual rowsMes).map (fun e => e.2.1)).sum)
      ∧ ((masa_mensual rowsMes).map (fun e => e.2.1)).sum = total_masa_salarial rowsMes) :=
  ⟨by decide, by decide, C3_monthly_total_eq_total_mass rowsMes (by decide) (by decide)⟩

/-- C4 counterexample: the record set `rowsNeg` (reachable, since headcount
is coerced without clamping) has headcount -1, a non-zero denominator, yet
the guard yields 0 rather than the quotient. -/
theorem C4_negative_denominator_cex :
    cantidad_empleados rowsNeg ≠ 0
    ∧ costo_medio rowsNeg ≠ total_masa_salarial rowsNeg / cantidad_empleados rowsNeg := by
  have h1 : cantidad_empleados rowsNeg = -1 := by
    have e1 : cantidad_empleados rowsNeg = -1 + 0 := rfl
    rw [e1, add_zero]
  have h2 : total_masa_salarial rowsNeg = 5 := by
    have e2 : total_masa_salarial rowsNeg = 5 + 0 := rfl
    rw [e2, add_zero]
  have h3 : costo_medio rowsNeg = 0 := by
    rw [costo_medio, if_neg (by rw [h1]; norm_num)]
  refine ⟨by rw [h1]; norm_num, ?_⟩
  rw [h3, h2, h1]
  norm_num

/-- C4 (amended): the average cost per employee and each classification
share are total functions yielding the quotient when the denominator is
positive and 0 otherwise — in particular 0 when the denominator is 0, but
also 0 (not the quotient) when the denominator is negative. -/
theorem C4_ratio_guard (rows : List Row) (g : String) (sq pq : ℚ)
    (hmem : (g, sq, pq) ∈ clasificacion_data rows) :
    (cantidad_empleados rows ≤ 0 → costo_medio rows = 0)
    ∧ (0 < cantidad_empleados rows →
        costo_medio rows = total_masa_salarial rows / cantidad_empleados rows)
    ∧ (clasifTotal rows ≤ 0 → pq = 0)
    ∧ (0 < clasifTotal rows → pq = sq / clasifTotal rows) := by
  refine ⟨fun hle => ?_, fun hlt => ?_, fun hle => ?_, fun hlt => ?_⟩
  · rw [costo_medio, if_neg (not_lt.mpr hle)]
  · rw [costo_medio, if_pos hlt]
  · rw [clasificacion_data, if_neg (not_lt.mpr hle)] at hmem
    simp only [List.mem_map] at hmem
    obtain ⟨e, _, he⟩ := hmem
    rw [Prod.mk.injEq, Prod.mk.injEq] at he
    exact he.2.2.symm
  · rw [clasificacion_data, if_pos hlt] at hmem
    simp only [List.mem_map] at hmem
    obtain ⟨e, _, he⟩ := hmem
    rw [Prod.mk.injEq, Prod.mk.injEq] at he
    rw [← he.2.2, ← he.2.1]

/-- Witness for C4 at a concrete one-group record set. -/
theorem C4_ratio_guard_witness :
    (("X", (0 : ℚ), (0 : ℚ)) ∈ clasificacion_data rowsCls0)
    ∧ ((cantidad_empleados rowsCls0 ≤ 0 → costo_medio rowsCls0 = 0)
      ∧ (0 < cantidad_empleados rowsCls0 →
          costo_medio rowsCls0 = total_masa_salarial rowsCls0 / cantidad_empleados rowsCls0)
      ∧ (clasifTotal rowsCls0 ≤ 0 → (0 : ℚ) = 0)
      ∧ (0 < clasifTotal rowsCls0 → (0 : ℚ) = 0 / clasifTotal rowsCls0)) := by
  have hmem : (("X", (0 : ℚ), (0 : ℚ)) ∈ clasificacion_data rowsCls0) := by
    simp [clasificacion_data, clasifGroups, clasifTotal, colSum, uniqueFirst, uniqueFirstAux,
      rowStr, lookup, rowsCls0, cellQ, sortForCol, List.insertionSort, List.orderedInsert]
  exact ⟨hmem, C4_ratio_guard rowsCls0 "X" 0 0 hmem⟩
